import Mathlib

/-!
# nuke-arsenal: the Arsenal Service over its command store

A shallow embedding of `internal/services/arsenal_service.go` and
`internal/data/directories.go`.

* Go `int` is taken to be 64 bits wide; ids are `Int` and the one addition
  the service performs on them (`maxID + 1`) wraps around explicitly.
* Go strings coming from JSON are valid UTF-8, so they are Lean `String`s and
  byte-wise substring search agrees with search on code points.
* `map[string]Group` is a duplicate-free association list.  The order of the
  list stands for the order in which one `range` over the map happens to visit
  the keys; Go leaves that order unspecified, and every statement below holds
  for every order.
* The file system, the clock and the outcome of I/O are an explicit `World`;
  the service's own field `dataPath` travels with it in `State`.
-/

set_option autoImplicit false

namespace NukeArsenal

/-! ## Machine integers -/

/-- Width of Go's `int` on the 64-bit platforms the program is built for. -/
def intBits : Nat := 64

/-- Largest value of Go's `int`. -/
def maxInt : Int := 2 ^ (intBits - 1) - 1

/-- Smallest value of Go's `int`. -/
def minInt : Int := -(2 ^ (intBits - 1))

/-- Two's-complement wrap-around of an integer result into the range of `int`. -/
def wrapInt (x : Int) : Int :=
  (x + 2 ^ (intBits - 1)) % 2 ^ intBits - 2 ^ (intBits - 1)

/-! ## Data model (`internal/models`) -/

namespace models

/-- Modelled from the spec: `models.Command` (§3), the declaration is not in the
sources at hand.  `created` is a point in time, counted in clock ticks. -/
structure Command where
  id : Int
  cmd : String
  description : String
  output : String
  note : String
  tags : List String
  created : Int
  deriving DecidableEq, Repr

/-- Modelled from the spec: `models.Group` (§3). -/
structure Group where
  name : String
  icon : String
  description : String
  commands : List Command
  deriving DecidableEq, Repr

/-- Modelled from the spec: `models.Config` (§3). -/
structure Config where
  dataPath : String
  deriving DecidableEq, Repr

/-- Keys of an association list, in list order. -/
def keysOf (l : List (String × Group)) : List String := l.map Prod.fst

/-- Modelled from the spec: `models.CommandsFile` (§3), the root document.  Its
field `Groups` is a Go map: keys are unique. -/
structure CommandsFile where
  groups : List (String × Group)
  nodup : (keysOf groups).Nodup

/-- Map read `m[key]` with the comma-ok form: the group and whether it exists. -/
def lookupEntry (key : String) : List (String × Group) → Option Group
  | [] => none
  | (k, g) :: rest => if k = key then some g else lookupEntry key rest

/-- Map write `m[key] = g` on the entries: overwrite in place or insert. -/
def setEntry (key : String) (g : Group) : List (String × Group) → List (String × Group)
  | [] => [(key, g)]
  | (k, g') :: rest => if k = key then (key, g) :: rest else (k, g') :: setEntry key g rest

/-- The builtin `delete(m, key)` on the entries. -/
def eraseEntry (key : String) (l : List (String × Group)) : List (String × Group) :=
  l.filter (fun e => decide (e.1 ≠ key))

theorem keysOf_setEntry_of_mem (key : String) (g : Group) (l : List (String × Group))
    (h : key ∈ keysOf l) : keysOf (setEntry key g l) = keysOf l := by
  induction l with
  | nil => simp [keysOf] at h
  | cons e rest ih =>
    obtain ⟨k, g'⟩ := e
    by_cases hk : k = key
    · simp [setEntry, keysOf, hk]
    · have hmem : key ∈ keysOf rest := by
        simp only [keysOf, List.map_cons, List.mem_cons] at h
        rcases h with h | h
        · exact absurd h.symm hk
        · exact h
      have := ih hmem
      simp only [keysOf] at this
      simp [setEntry, keysOf, hk, this]

theorem keysOf_setEntry_of_not_mem (key : String) (g : Group) (l : List (String × Group))
    (h : key ∉ keysOf l) : keysOf (setEntry key g l) = keysOf l ++ [key] := by
  induction l with
  | nil => simp [keysOf, setEntry]
  | cons e rest ih =>
    obtain ⟨k, g'⟩ := e
    simp only [keysOf, List.map_cons, List.mem_cons, not_or] at h
    have hk : ¬ k = key := fun hh => h.1 hh.symm
    have := ih h.2
    simp only [keysOf] at this
    simp [setEntry, keysOf, hk, this]

theorem nodup_setEntry (key : String) (g : Group) (l : List (String × Group))
    (h : (keysOf l).Nodup) : (keysOf (setEntry key g l)).Nodup := by
  by_cases hm : key ∈ keysOf l
  · rw [keysOf_setEntry_of_mem key g l hm]; exact h
  · rw [keysOf_setEntry_of_not_mem key g l hm]
    exact List.Nodup.append h (List.nodup_singleton key) (by simpa using hm)

theorem nodup_eraseEntry (key : String) (l : List (String × Group))
    (h : (keysOf l).Nodup) : (keysOf (eraseEntry key l)).Nodup := by
  unfold eraseEntry keysOf
  exact List.Nodup.sublist (List.Sublist.map _ (List.filter_sublist l)) h

namespace CommandsFile

/-- The empty document `{groups: {}}`. -/
def empty : CommandsFile := ⟨[], List.nodup_nil⟩

/-- Map read `doc.Groups[key]`. -/
def lookup (doc : CommandsFile) (key : String) : Option Group :=
  lookupEntry key doc.groups

/-- Map write `doc.Groups[key] = g`. -/
def set (doc : CommandsFile) (key : String) (g : Group) : CommandsFile :=
  ⟨setEntry key g doc.groups, nodup_setEntry key g doc.groups doc.nodup⟩

/-- The builtin `delete(doc.Groups, key)`. -/
def erase (doc : CommandsFile) (key : String) : CommandsFile :=
  ⟨eraseEntry key doc.groups, nodup_eraseEntry key doc.groups doc.nodup⟩

end CommandsFile

end models

/-! ## Library functions the service calls (`strings`, `path/filepath`) -/

namespace strings

/-- The call `strings.ToLower(s)`: on valid UTF-8 it maps every code point through
`unicode.ToLower`.  The case table of the Go library is the parameter
`lowerRune`. -/
def ToLower (lowerRune : Char → Char) (s : String) : String :=
  String.mk (s.data.map lowerRune)

/-- The call `strings.ToUpper(s)`, by which a caller converts a query to upper
case: on valid UTF-8 it maps every code point through `unicode.ToUpper`, the
parameter `upperRune`. -/
def ToUpper (upperRune : Char → Char) (s : String) : String :=
  String.mk (s.data.map upperRune)

/-- Occurrence of `sub` somewhere in a list of code points. -/
def containsChars (sub : List Char) : List Char → Bool
  | [] => sub.isPrefixOf []
  | c :: cs => sub.isPrefixOf (c :: cs) || containsChars sub cs

/-- The call `strings.Contains(s, substr)`: whether `substr` occurs within `s`. -/
def Contains (s substr : String) : Bool :=
  containsChars substr.data s.data

end strings

namespace filepath

/-- The call `filepath.Join(elems...)` on clean, non-empty elements none of which
ends in the separator (so not on the root "/", where Go drops the doubled
separator): they are joined by the separator. -/
def Join (elems : List String) : String := "/".intercalate elems

/-- Everything before the last separator of a list of code points read
backwards. -/
def dirChars (rev : List Char) : List Char :=
  ((rev.dropWhile (fun c => decide (c ≠ '/'))).drop 1).reverse

/-- The call `filepath.Dir(path)` on a clean path with a directory part: all but
the last element. -/
def Dir (path : String) : String := String.mk (dirChars path.data.reverse)

end filepath

/-! ## The world outside the service -/

/-- The failures of §7, and the run-time failure Go raises when a nil pointer is
dereferenced. -/
inductive Err where
  | HomeResolutionError
  | DirectoryCreateError
  | ConfigMissingError
  | ConfigReadError
  | ConfigWriteError
  | StoreReadError
  | StoreWriteError
  | NilDereference
  deriving DecidableEq, Repr

/-- What a path holds: nothing, bytes that do not parse, or a document. -/
inductive FileContent (α : Type) where
  | absent
  | malformed
  | valid (doc : α)

/-- The environment of one run: home directory, the two kinds of file, which
I/O requests the operating system grants, the clock, and a record of every
store document handed to `WriteCommands`. -/
structure World where
  home : Option String
  configFile : FileContent models.Config
  storeFiles : String → FileContent models.CommandsFile
  configWritable : Bool
  storeWritable : String → Bool
  dirCreatable : String → Bool
  now : Int
  storeWrites : List (String × models.CommandsFile)

/-- The service object (`ArsenalService`) together with the world it acts on. -/
structure State where
  dataPath : String
  world : World

/-- Result of a call: what it returns and the state it leaves. -/
abbrev Outcome (α : Type) := Except Err α × State

namespace data

/-- The function `GetConfigDir` of `directories.go`. -/
def GetConfigDir (w : World) : Except Err String :=
  match w.home with
  | none => .error .HomeResolutionError
  | some home => .ok (filepath.Join [home, ".config", "arsenal"])

/-- The function `GetDefaultDataDir` of `directories.go`. -/
def GetDefaultDataDir (w : World) : Except Err String :=
  match w.home with
  | none => .error .HomeResolutionError
  | some home => .ok (filepath.Join [home, ".nuke-arsenal"])

/-- The function `GetDefaultDataPath` of `directories.go`. -/
def GetDefaultDataPath (w : World) : Except Err String :=
  match GetDefaultDataDir w with
  | .error e => .error e
  | .ok dir => .ok (filepath.Join [dir, "commands.json"])

/-- The function `GetConfigPath` of `directories.go`. -/
def GetConfigPath (w : World) : Except Err String :=
  match GetConfigDir w with
  | .error e => .error e
  | .ok dir => .ok (filepath.Join [dir, "config.json"])

/-- The call `os.MkdirAll(dir, 0755)`: creates directories only, so no file
changes; it fails where the operating system refuses. -/
def MkdirAll (dir : String) (w : World) : Except Err Unit :=
  if w.dirCreatable dir then .ok () else .error .DirectoryCreateError

/-- The function `EnsureConfigDir` of `directories.go`. -/
def EnsureConfigDir (w : World) : Except Err Unit :=
  match GetConfigDir w with
  | .error e => .error e
  | .ok dir => MkdirAll dir w

/-- The function `EnsureDataDir` of `directories.go`. -/
def EnsureDataDir (dataPath : String) (w : World) : Except Err Unit :=
  MkdirAll (filepath.Dir dataPath) w

/-- Modelled from the spec: `data.HasConfig` (§4.2), not in the sources at hand:
true iff the config file exists and is readable (its bytes need not parse,
that is for `ReadConfig` to report); never fails. -/
def HasConfig (w : World) : Bool :=
  match w.configFile with
  | .absent => false
  | _ => true

/-- Modelled from the spec: `data.ReadConfig` (§4.2), not in the sources at hand:
the parsed config, `ConfigReadError` for a file that does not parse,
`ConfigMissingError` for none.  The Go result is a pointer, hence the option. -/
def ReadConfig (w : World) : Except Err (Option models.Config) :=
  match w.configFile with
  | .absent => .error .ConfigMissingError
  | .malformed => .error .ConfigReadError
  | .valid c => .ok (some c)

/-- Modelled from the spec: `data.WriteConfig` (§4.2), not in the sources at
hand: replaces the whole config document, `ConfigWriteError` on I/O failure
(the file is then taken to keep its content). -/
def WriteConfig (cfg : models.Config) (w : World) : Except Err Unit × World :=
  if w.configWritable then (.ok (), { w with configFile := .valid cfg })
  else (.error .ConfigWriteError, w)

/-- Modelled from the spec: `data.ReadCommands` (§4.3), not in the sources at
hand: the parsed document, `StoreReadError` for a missing or malformed file. -/
def ReadCommands (path : String) (w : World) : Except Err models.CommandsFile :=
  match w.storeFiles path with
  | .valid doc => .ok doc
  | _ => .error .StoreReadError

/-- Modelled from the spec: `data.WriteCommands` (§4.3), not in the sources at
hand: replaces the whole file at `path` by `doc`, `StoreWriteError` on I/O
failure (the file is then taken to keep its content).  Every call is
recorded in `storeWrites`. -/
def WriteCommands (path : String) (doc : models.CommandsFile) (w : World) :
    Except Err Unit × World :=
  if w.storeWritable path then
    (.ok (), { w with
      storeFiles := fun p => if p = path then .valid doc else w.storeFiles p
      storeWrites := w.storeWrites ++ [(path, doc)] })
  else
    (.error .StoreWriteError, { w with storeWrites := w.storeWrites ++ [(path, doc)] })

end data

/-! ## The Arsenal Service (`internal/services/arsenal_service.go`) -/

namespace services

open models

/-- The type `SearchResult`. -/
structure SearchResult where
  groupKey : String
  groupName : String
  command : Command
  deriving DecidableEq, Repr

/-- The constructor `NewArsenalService`: the active path starts empty. -/
def NewArsenalService (w : World) : State := { dataPath := "", world := w }

/-- The method `HasConfig`. -/
def HasConfig (σ : State) : Bool := data.HasConfig σ.world

/-- The method `GetConfig`. -/
def GetConfig (σ : State) : Outcome (Option Config) := (data.ReadConfig σ.world, σ)

/-- The method `SetDataPath`. -/
def SetDataPath (path : String) (σ : State) : Outcome Unit :=
  let config : Config := { dataPath := path }
  match data.WriteConfig config σ.world with
  | (.error err, w) => (.error err, { σ with world := w })
  | (.ok (), w) => (.ok (), { dataPath := path, world := w })

/-- The method `InitializeDefault`. -/
def InitializeDefault (σ : State) : Outcome String :=
  if data.HasConfig σ.world then
    match data.ReadConfig σ.world with
    | .error err => (.error err, σ)
    | .ok none => (.error .NilDereference, σ)
    | .ok (some config) => (.ok config.dataPath, { σ with dataPath := config.dataPath })
  else
    match data.GetDefaultDataPath σ.world with
    | .error err => (.error err, σ)
    | .ok defaultPath =>
      match data.EnsureDataDir defaultPath σ.world with
      | .error err => (.error err, σ)
      | .ok () =>
        match data.ReadCommands defaultPath σ.world with
        | .error _ =>
          let defaultCommands := CommandsFile.empty
          match data.WriteCommands defaultPath defaultCommands σ.world with
          | (.error err, w) => (.error err, { σ with world := w })
          | (.ok (), w) =>
            match SetDataPath defaultPath { σ with world := w } with
            | (.error err, σ1) => (.error err, σ1)
            | (.ok (), σ1) => (.ok defaultPath, σ1)
        | .ok _ =>
          match SetDataPath defaultPath σ with
          | (.error err, σ1) => (.error err, σ1)
          | (.ok (), σ1) => (.ok defaultPath, σ1)

/-- The method `ensureDataPath`. -/
def ensureDataPath (σ : State) : Outcome Unit :=
  if σ.dataPath = "" then
    match data.ReadConfig σ.world with
    | .error err => (.error err, σ)
    | .ok none => (.ok (), σ)
    | .ok (some config) => (.ok (), { σ with dataPath := config.dataPath })
  else
    (.ok (), σ)

/-- The method `GetCommands`. -/
def GetCommands (σ : State) : Outcome CommandsFile :=
  match ensureDataPath σ with
  | (.error err, σ1) => (.error err, σ1)
  | (.ok (), σ1) => (data.ReadCommands σ1.dataPath σ1.world, σ1)

/-- The method `GetGroups`. -/
def GetGroups (σ : State) : Outcome (List (String × Group)) :=
  match GetCommands σ with
  | (.error err, σ1) => (.error err, σ1)
  | (.ok commands, σ1) => (.ok commands.groups, σ1)

/-- The method `AddGroup`. -/
def AddGroup (key name icon description : String) (σ : State) : Outcome Unit :=
  match GetCommands σ with
  | (.error err, σ1) => (.error err, σ1)
  | (.ok commands, σ1) =>
    let commands := commands.set key
      { name := name, icon := icon, description := description, commands := [] }
    match data.WriteCommands σ1.dataPath commands σ1.world with
    | (r, w) => (r, { σ1 with world := w })

/-- The method `DeleteGroup`. -/
def DeleteGroup (key : String) (σ : State) : Outcome Unit :=
  match GetCommands σ with
  | (.error err, σ1) => (.error err, σ1)
  | (.ok commands, σ1) =>
    let commands := commands.erase key
    match data.WriteCommands σ1.dataPath commands σ1.world with
    | (r, w) => (r, { σ1 with world := w })

/-- The loop "Find next ID" of `AddCommand`: starts at 0 and keeps the largest id
seen. -/
def findMaxID (cmds : List Command) : Int :=
  cmds.foldl (fun maxID c => if c.id > maxID then c.id else maxID) 0

/-- The method `AddCommand`. -/
def AddCommand (groupKey cmd description output note : String) (tags : List String)
    (σ : State) : Outcome Unit :=
  match GetCommands σ with
  | (.error err, σ1) => (.error err, σ1)
  | (.ok commands, σ1) =>
    match commands.lookup groupKey with
    | none => (.ok (), σ1)
    | some group =>
      let maxID := findMaxID group.commands
      let newCmd : Command :=
        { id := wrapInt (maxID + 1), cmd := cmd, description := description,
          output := output, note := note, tags := tags, created := σ1.world.now }
      let group := { group with commands := group.commands ++ [newCmd] }
      let commands := commands.set groupKey group
      match data.WriteCommands σ1.dataPath commands σ1.world with
      | (r, w) => (r, { σ1 with world := w })

/-- The loop of `UpdateCommand`: the first command with the id gets the new
fields, then the loop breaks. -/
def updateFirst (id : Int) (cmd description output note : String) (tags : List String) :
    List Command → List Command
  | [] => []
  | c :: rest =>
    if c.id = id then
      { c with cmd := cmd, description := description, output := output, note := note,
               tags := tags } :: rest
    else
      c :: updateFirst id cmd description output note tags rest

/-- The method `UpdateCommand`. -/
def UpdateCommand (groupKey : String) (id : Int) (cmd description output note : String)
    (tags : List String) (σ : State) : Outcome Unit :=
  match GetCommands σ with
  | (.error err, σ1) => (.error err, σ1)
  | (.ok commands, σ1) =>
    match commands.lookup groupKey with
    | none => (.ok (), σ1)
    | some group =>
      let group := { group with
        commands := updateFirst id cmd description output note tags group.commands }
      let commands := commands.set groupKey group
      match data.WriteCommands σ1.dataPath commands σ1.world with
      | (r, w) => (r, { σ1 with world := w })

/-- The loop of `DeleteCommand`: the first command with the id is cut out
(`append(cmds[:i], cmds[i+1:]...)`), then the loop breaks. -/
def removeFirst (id : Int) : List Command → List Command
  | [] => []
  | c :: rest => if c.id = id then rest else c :: removeFirst id rest

/-- The method `DeleteCommand`. -/
def DeleteCommand (groupKey : String) (id : Int) (σ : State) : Outcome Unit :=
  match GetCommands σ with
  | (.error err, σ1) => (.error err, σ1)
  | (.ok commands, σ1) =>
    match commands.lookup groupKey with
    | none => (.ok (), σ1)
    | some group =>
      let group := { group with commands := removeFirst id group.commands }
      let commands := commands.set groupKey group
      match data.WriteCommands σ1.dataPath commands σ1.world with
      | (r, w) => (r, { σ1 with world := w })

/-- The function `containsTag`; `query` arrives already lower-cased. -/
def containsTag (lowerRune : Char → Char) (tags : List String) (query : String) : Bool :=
  match tags with
  | [] => false
  | tag :: rest =>
    if strings.Contains (strings.ToLower lowerRune tag) query then true
    else containsTag lowerRune rest query

/-- The condition of the inner loop of `Search`; `query` is already lower-cased. -/
def matchesQuery (lowerRune : Char → Char) (query : String) (cmd : Command) : Bool :=
  strings.Contains (strings.ToLower lowerRune cmd.cmd) query ||
  strings.Contains (strings.ToLower lowerRune cmd.description) query ||
  containsTag lowerRune cmd.tags query

/-- The two nested loops of `Search` over the groups in visiting order. -/
def searchLoop (lowerRune : Char → Char) (query : String) (groups : List (String × Group)) :
    List SearchResult :=
  groups.foldl (fun results entry =>
    entry.2.commands.foldl (fun results cmd =>
      if matchesQuery lowerRune query cmd then
        results ++ [{ groupKey := entry.1, groupName := entry.2.name, command := cmd }]
      else results) results) []

/-- The method `Search`. -/
def Search (lowerRune : Char → Char) (query : String) (σ : State) :
    Outcome (List SearchResult) :=
  match GetCommands σ with
  | (.error err, σ1) => (.error err, σ1)
  | (.ok commands, σ1) =>
    let query := strings.ToLower lowerRune query
    (.ok (searchLoop lowerRune query commands.groups), σ1)

/-! ## Vocabulary of the statements -/

/-- The write-back step the five mutating methods end with. -/
def writeBack (σ1 : State) (doc : CommandsFile) : Outcome Unit :=
  ((data.WriteCommands σ1.dataPath doc σ1.world).1,
    { σ1 with world := (data.WriteCommands σ1.dataPath doc σ1.world).2 })

/-- The command `AddCommand` builds. -/
def newCommand (g : Group) (cmd description output note : String) (tags : List String)
    (now : Int) : Command :=
  { id := wrapInt (findMaxID g.commands + 1), cmd := cmd, description := description,
    output := output, note := note, tags := tags, created := now }

/-- That `m` is the maximum id present among `cmds`. -/
def IsMaxID (m : Int) (cmds : List Command) : Prop :=
  (∃ c ∈ cmds, c.id = m) ∧ ∀ c ∈ cmds, c.id ≤ m

/-- That position `i` of `cmds` holds the first command whose id is `id`. -/
def IsFirstMatch (id : Int) (cmds : List Command) (i : Nat) : Prop :=
  (∃ c, cmds[i]? = some c ∧ c.id = id) ∧ ∀ j d, j < i → cmds[j]? = some d → d.id ≠ id

/-- That the ids of a group are pairwise distinct and none is negative. -/
def GroupInv (g : Group) : Prop :=
  (g.commands.map (fun c => c.id)).Nodup ∧ ∀ c ∈ g.commands, 0 ≤ c.id

/-- That `GroupInv` holds of every group of the document. -/
def DocInv (doc : CommandsFile) : Prop :=
  ∀ key g, doc.lookup key = some g → GroupInv g

/-- That the lower-cased query occurs in the lower-cased cmd, in the lower-cased
description, or in at least one lower-cased tag of the command. -/
def QueryOccurs (lowerRune : Char → Char) (query : String) (c : Command) : Prop :=
  (strings.ToLower lowerRune query).data <:+: (strings.ToLower lowerRune c.cmd).data ∨
  (strings.ToLower lowerRune query).data <:+: (strings.ToLower lowerRune c.description).data ∨
  ∃ tag ∈ c.tags,
    (strings.ToLower lowerRune query).data <:+: (strings.ToLower lowerRune tag).data

instance (lowerRune : Char → Char) (query : String) (c : Command) :
    Decidable (QueryOccurs lowerRune query c) := by
  unfold QueryOccurs
  exact inferInstance

/-- That the two case tables act on ASCII as those of the Go library do: the
capitals A to Z and the small letters a to z correspond, and every other
ASCII character is fixed. -/
def AsciiCase (lowerRune upperRune : Char → Char) : Prop :=
  ∀ c : Char, c.toNat < 128 → lowerRune c = Char.toLower c ∧ upperRune c = Char.toUpper c

/-- That a text is made of ASCII characters only. -/
def IsAscii (s : String) : Prop := ∀ c ∈ s.data, c.toNat < 128

instance (s : String) : Decidable (IsAscii s) := by
  unfold IsAscii
  exact inferInstance

/-- The results one group contributes: its matching commands, in stored order,
each with the group's key and name. -/
def groupResults (lowerRune : Char → Char) (query : String) (key : String) (g : Group) :
    List SearchResult :=
  (g.commands.filter (fun c => decide (QueryOccurs lowerRune query c))).map
    (fun c => { groupKey := key, groupName := g.name, command := c })

/-- The ids of the commands `GetCommands` shows for a group, if it shows the group. -/
def idsShown (σ : State) (groupKey : String) : Option (List Int) :=
  match (GetCommands σ).1 with
  | .ok doc => (doc.lookup groupKey).map (fun g => g.commands.map (fun c => c.id))
  | .error _ => none

/-! ## Fixtures for concrete runs -/

/-- A command that carries only an id. -/
def bareCommand (id : Int) : Command :=
  { id := id, cmd := "", description := "", output := "", note := "", tags := [], created := 0 }

/-- Three commands: the first has "ls" in its cmd, the second only in its output
and note, the third only in a tag written in capitals. -/
def sampleCommands : List Command :=
  [ { id := 1, cmd := "ls -la", description := "List files", output := "", note := "",
      tags := ["fs"], created := 10 },
    { id := 2, cmd := "pwd", description := "Where am I", output := "ls", note := "ls",
      tags := [], created := 20 },
    { id := 3, cmd := "du", description := "Disk", output := "", note := "",
      tags := ["x", "LS-like"], created := 30 } ]

/-- A document with the single group "tools" holding `cmds`. -/
def toolsDoc (cmds : List Command) : CommandsFile :=
  ⟨[("tools", { name := "Tools", icon := "wrench", description := "", commands := cmds })],
    by simp [keysOf]⟩

/-- A world where the config names "/data/commands.json", that file holds `doc`,
every I/O request is granted and the clock shows 1000. -/
def worldWith (doc : CommandsFile) : World :=
  { home := some "/home/u"
    configFile := .valid { dataPath := "/data/commands.json" }
    storeFiles := fun p => if p = "/data/commands.json" then .valid doc else .absent
    configWritable := true
    storeWritable := fun _ => true
    dirCreatable := fun _ => true
    now := 1000
    storeWrites := [] }

/-- A freshly constructed service in `worldWith doc`. -/
def freshState (doc : CommandsFile) : State := NewArsenalService (worldWith doc)

/-- A world where the config names "/data/commands.json" and that file holds bytes
that do not parse; every I/O request is granted. -/
def malformedStoreWorld : World :=
  { home := some "/home/u"
    configFile := .valid { dataPath := "/data/commands.json" }
    storeFiles := fun p => if p = "/data/commands.json" then .malformed else .absent
    configWritable := true
    storeWritable := fun _ => true
    dirCreatable := fun _ => true
    now := 1000
    storeWrites := [] }

/-- The table `unicode.ToLower` of the Go library on the code points the concrete
runs use: ASCII, where capitals go to small letters, and U+0131 (small
dotless i), which is its own lower case. -/
def goLowerRune (c : Char) : Char := Char.toLower c

/-- The table `unicode.ToUpper` of the Go library on the code points the concrete
runs use: ASCII, where small letters go to capitals, and U+0131 (small
dotless i), whose upper case is the ASCII capital I. -/
def goUpperRune (c : Char) : Char :=
  if c = Char.ofNat 0x131 then Char.ofNat 0x49 else Char.toUpper c

/-- A command whose cmd is `text` and that carries nothing else. -/
def textCommand (id : Int) (text : String) : Command :=
  { id := id, cmd := text, description := "", output := "", note := "", tags := [],
    created := 0 }

/-- The cmd texts of the results of a search, if it succeeded. -/
def cmdsFound (r : Outcome (List SearchResult)) : Option (List String) :=
  match r.1 with
  | .ok results => some (results.map (fun x => x.command.cmd))
  | .error _ => none

/-- A world without a config file, where the default data path holds `content`;
every I/O request is granted. -/
def unconfiguredWorld (content : FileContent CommandsFile) : World :=
  { home := some "/home/u"
    configFile := .absent
    storeFiles := fun p => if p = "/home/u/.nuke-arsenal/commands.json" then content
                           else .absent
    configWritable := true
    storeWritable := fun _ => true
    dirCreatable := fun _ => true
    now := 1000
    storeWrites := [] }

end services

/-! ## Shared lemmas: the map -/

namespace models

theorem lookupEntry_setEntry_same (key : String) (g : Group) (l : List (String × Group)) :
    lookupEntry key (setEntry key g l) = some g := by
  induction l with
  | nil => simp [setEntry, lookupEntry]
  | cons e rest ih =>
    obtain ⟨k, g'⟩ := e
    by_cases hk : k = key
    · simp [setEntry, lookupEntry, hk]
    · simp [setEntry, lookupEntry, hk, ih]

theorem lookupEntry_setEntry_other (key other : String) (g : Group)
    (l : List (String × Group)) (h : other ≠ key) :
    lookupEntry other (setEntry key g l) = lookupEntry other l := by
  induction l with
  | nil =>
    have : ¬ key = other := fun hh => h hh.symm
    simp [setEntry, lookupEntry, this]
  | cons e rest ih =>
    obtain ⟨k, g'⟩ := e
    by_cases hk : k = key
    · have : ¬ k = other := fun hh => h (hh.symm.trans hk)
      have h2 : ¬ key = other := fun hh => h hh.symm
      simp [setEntry, lookupEntry, hk, h2]
    · by_cases ho : k = other
      · subst ho
        simp [setEntry, lookupEntry, h]
      · simp [setEntry, lookupEntry, hk, ho, ih]

theorem setEntry_of_lookupEntry (key : String) (g : Group) (l : List (String × Group))
    (h : lookupEntry key l = some g) : setEntry key g l = l := by
  induction l with
  | nil => simp [lookupEntry] at h
  | cons e rest ih =>
    obtain ⟨k, g'⟩ := e
    by_cases hk : k = key
    · simp only [lookupEntry, hk, if_true, Option.some.injEq] at h
      simp [setEntry, hk, h]
    · simp only [lookupEntry, hk, if_false] at h
      simp [setEntry, hk, ih h]

theorem lookupEntry_eq_none_iff (key : String) (l : List (String × Group)) :
    lookupEntry key l = none ↔ key ∉ keysOf l := by
  induction l with
  | nil => simp [lookupEntry, keysOf]
  | cons e rest ih =>
    obtain ⟨k, g'⟩ := e
    by_cases hk : k = key
    · simp [lookupEntry, keysOf, hk]
    · have hk2 : ¬ key = k := fun hh => hk hh.symm
      simp only [keysOf] at ih
      simp [lookupEntry, keysOf, hk, hk2, ih]

theorem lookupEntry_eq_some_of_mem (key : String) (g : Group) (l : List (String × Group))
    (hn : (keysOf l).Nodup) (h : (key, g) ∈ l) : lookupEntry key l = some g := by
  induction l with
  | nil => simp at h
  | cons e rest ih =>
    obtain ⟨k, g'⟩ := e
    simp only [keysOf, List.map_cons, List.nodup_cons, List.mem_map, not_exists, not_and] at hn
    rcases List.mem_cons.mp h with h | h
    · cases h
      simp [lookupEntry]
    · have hk : ¬ k = key := by
        intro hh
        exact hn.1 (key, g) h hh.symm
      simp only [lookupEntry, hk, if_false]
      exact ih hn.2 h

theorem mem_of_lookupEntry (key : String) (g : Group) (l : List (String × Group))
    (h : lookupEntry key l = some g) : (key, g) ∈ l := by
  induction l with
  | nil => simp [lookupEntry] at h
  | cons e rest ih =>
    obtain ⟨k, g'⟩ := e
    by_cases hk : k = key
    · simp only [lookupEntry, hk, if_true, Option.some.injEq] at h
      simp [hk, h]
    · simp only [lookupEntry, hk, if_false] at h
      exact List.mem_cons_of_mem _ (ih h)

theorem eraseEntry_of_lookupEntry_none (key : String) (l : List (String × Group))
    (h : lookupEntry key l = none) : eraseEntry key l = l := by
  rw [lookupEntry_eq_none_iff] at h
  unfold eraseEntry
  rw [List.filter_eq_self]
  intro e he
  have : e.1 ∈ keysOf l := List.mem_map_of_mem Prod.fst he
  have hne : e.1 ≠ key := fun hh => h (hh ▸ this)
  simpa using hne

theorem lookupEntry_eraseEntry_same (key : String) (l : List (String × Group)) :
    lookupEntry key (eraseEntry key l) = none := by
  rw [lookupEntry_eq_none_iff]
  unfold eraseEntry keysOf
  simp

theorem eraseEntry_cons (key k : String) (g : Group) (rest : List (String × Group)) :
    eraseEntry key ((k, g) :: rest) =
      if k = key then eraseEntry key rest else (k, g) :: eraseEntry key rest := by
  by_cases hk : k = key <;> simp [eraseEntry, List.filter_cons, hk]

theorem lookupEntry_eraseEntry_other (key other : String) (l : List (String × Group))
    (h : other ≠ key) : lookupEntry other (eraseEntry key l) = lookupEntry other l := by
  induction l with
  | nil => simp [eraseEntry, lookupEntry]
  | cons e rest ih =>
    obtain ⟨k, g'⟩ := e
    rw [eraseEntry_cons]
    by_cases hk : k = key
    · have hko : ¬ k = other := fun hh => h (hh.symm.trans hk)
      simp only [hk, if_true, lookupEntry]
      rw [ih]
      have : ¬ key = other := fun hh => h hh.symm
      simp [this]
    · by_cases ho : k = other
      · subst ho
        simp [hk, lookupEntry]
      · simp [hk, lookupEntry, ho, ih]

theorem CommandsFile.ext_groups (a b : CommandsFile) (h : a.groups = b.groups) : a = b := by
  cases a; cases b; cases h; rfl

theorem CommandsFile.set_of_lookup (doc : CommandsFile) (key : String) (g : Group)
    (h : doc.lookup key = some g) : doc.set key g = doc :=
  CommandsFile.ext_groups _ _ (setEntry_of_lookupEntry key g doc.groups h)

end models

/-! ## Shared lemmas: loading and writing back -/

namespace services

open models

theorem ensureDataPath_ok (σ σ1 : State) (h : ensureDataPath σ = (.ok (), σ1)) :
    σ1.world = σ.world ∧ ensureDataPath σ1 = (.ok (), σ1) := by
  unfold ensureDataPath at h
  by_cases hp : σ.dataPath = ""
  · simp only [hp, if_true] at h
    cases hc : data.ReadConfig σ.world with
    | error e => simp [hc] at h
    | ok oc =>
      cases oc with
      | none =>
        simp only [hc, Prod.mk.injEq, true_and] at h
        subst h
        refine ⟨rfl, ?_⟩
        simp [ensureDataPath, hp, hc]
      | some c =>
        simp only [hc, Prod.mk.injEq, true_and] at h
        subst h
        refine ⟨rfl, ?_⟩
        unfold ensureDataPath
        by_cases hq : c.dataPath = ""
        · simp [hq, hc]
        · simp [hq]
  · simp only [hp, if_false, Prod.mk.injEq, true_and] at h
    subst h
    refine ⟨rfl, ?_⟩
    simp [ensureDataPath, hp]

theorem ensureDataPath_config_only (σ : State) (w : World)
    (hw : w.configFile = σ.world.configFile) (h : ensureDataPath σ = (.ok (), σ)) :
    ensureDataPath { σ with world := w } = (.ok (), { σ with world := w }) := by
  unfold ensureDataPath at h ⊢
  by_cases hp : σ.dataPath = ""
  · simp only [hp, if_true] at h ⊢
    have hrc : data.ReadConfig w = data.ReadConfig σ.world := by
      simp [data.ReadConfig, hw]
    rw [hrc]
    cases hc : data.ReadConfig σ.world with
    | error e => simp [hc] at h
    | ok oc =>
      cases oc with
      | none => rfl
      | some c =>
        simp only [hc, Prod.mk.injEq, true_and] at h
        have hd : c.dataPath = σ.dataPath := by
          have := congrArg State.dataPath h
          simpa using this
        simp [hd, hp]
  · simp [hp]

theorem GetCommands_ok (σ σ1 : State) (doc : CommandsFile)
    (h : GetCommands σ = (.ok doc, σ1)) :
    σ1.world = σ.world ∧ data.ReadCommands σ1.dataPath σ1.world = .ok doc ∧
      ensureDataPath σ1 = (.ok (), σ1) := by
  unfold GetCommands at h
  cases he : ensureDataPath σ with
  | mk r σ2 =>
    cases r with
    | error e => simp [he] at h
    | ok u =>
      cases u
      simp only [he, Prod.mk.injEq] at h
      obtain ⟨h1, h2⟩ := h
      subst h2
      obtain ⟨hw, hi⟩ := ensureDataPath_ok σ σ2 he
      exact ⟨hw, h1, hi⟩

theorem WriteCommands_ok (path : String) (doc : CommandsFile) (w w' : World)
    (h : data.WriteCommands path doc w = (.ok (), w')) :
    w'.configFile = w.configFile ∧ w'.storeFiles path = .valid doc ∧
      (∀ p, p ≠ path → w'.storeFiles p = w.storeFiles p) ∧
      w'.storeWrites = w.storeWrites ++ [(path, doc)] := by
  unfold data.WriteCommands at h
  by_cases hw : w.storeWritable path = true
  · simp only [hw, if_true, Prod.mk.injEq, true_and] at h
    subst h
    refine ⟨rfl, by simp, ?_, rfl⟩
    intro p hp
    simp [hp]
  · simp [hw] at h

/-- Reading again after a successful write-back returns the document written. -/
theorem GetCommands_after_write (σ σ1 : State) (doc doc' : CommandsFile) (w : World)
    (h : GetCommands σ = (.ok doc, σ1))
    (hw : data.WriteCommands σ1.dataPath doc' σ1.world = (.ok (), w)) :
    GetCommands { σ1 with world := w } = (.ok doc', { σ1 with world := w }) := by
  obtain ⟨_, _, hi⟩ := GetCommands_ok σ σ1 doc h
  obtain ⟨hc, hs, _, _⟩ := WriteCommands_ok _ _ _ _ hw
  have he := ensureDataPath_config_only σ1 w hc hi
  unfold GetCommands
  rw [he]
  simp [data.ReadCommands, hs]

theorem writeBack_ok (σ σ1 σ' : State) (doc doc' : CommandsFile)
    (h : GetCommands σ = (.ok doc, σ1)) (hw : writeBack σ1 doc' = (.ok (), σ')) :
    GetCommands σ' = (.ok doc', σ') ∧ σ'.dataPath = σ1.dataPath ∧
      σ'.world.storeWrites = σ.world.storeWrites ++ [(σ1.dataPath, doc')] := by
  unfold writeBack at hw
  cases hwc : data.WriteCommands σ1.dataPath doc' σ1.world with
  | mk r w =>
    rw [hwc] at hw
    simp only [Prod.mk.injEq] at hw
    obtain ⟨hr, hσ⟩ := hw
    subst hr
    subst hσ
    obtain ⟨hworld, _, _⟩ := GetCommands_ok σ σ1 doc h
    obtain ⟨_, _, _, hlog⟩ := WriteCommands_ok _ _ _ _ hwc
    refine ⟨GetCommands_after_write σ σ1 doc doc' w h hwc, rfl, ?_⟩
    simp [hlog, hworld]

theorem AddGroup_eq (key name icon description : String) (σ σ1 : State) (doc : CommandsFile)
    (h : GetCommands σ = (.ok doc, σ1)) :
    AddGroup key name icon description σ =
      writeBack σ1 (doc.set key
        { name := name, icon := icon, description := description, commands := [] }) := by
  simp [AddGroup, h, writeBack]

theorem DeleteGroup_eq (key : String) (σ σ1 : State) (doc : CommandsFile)
    (h : GetCommands σ = (.ok doc, σ1)) :
    DeleteGroup key σ = writeBack σ1 (doc.erase key) := by
  simp [DeleteGroup, h, writeBack]

theorem AddCommand_eq (groupKey cmd description output note : String) (tags : List String)
    (σ σ1 : State) (doc : CommandsFile) (g : Group)
    (h : GetCommands σ = (.ok doc, σ1)) (hg : doc.lookup groupKey = some g) :
    AddCommand groupKey cmd description output note tags σ =
      writeBack σ1 (doc.set groupKey { g with commands := g.commands ++
        [newCommand g cmd description output note tags σ1.world.now] }) := by
  simp [AddCommand, h, hg, writeBack, newCommand]

theorem UpdateCommand_eq (groupKey : String) (id : Int) (cmd description output note : String)
    (tags : List String) (σ σ1 : State) (doc : CommandsFile) (g : Group)
    (h : GetCommands σ = (.ok doc, σ1)) (hg : doc.lookup groupKey = some g) :
    UpdateCommand groupKey id cmd description output note tags σ =
      writeBack σ1 (doc.set groupKey { g with
        commands := updateFirst id cmd description output note tags g.commands }) := by
  simp [UpdateCommand, h, hg, writeBack]

theorem DeleteCommand_eq (groupKey : String) (id : Int)
    (σ σ1 : State) (doc : CommandsFile) (g : Group)
    (h : GetCommands σ = (.ok doc, σ1)) (hg : doc.lookup groupKey = some g) :
    DeleteCommand groupKey id σ =
      writeBack σ1 (doc.set groupKey { g with commands := removeFirst id g.commands }) := by
  simp [DeleteCommand, h, hg, writeBack]

/-! ## Shared lemmas: the id loop -/

theorem foldl_maxID_ge_init (cmds : List Command) (m0 : Int) :
    m0 ≤ cmds.foldl (fun maxID c => if c.id > maxID then c.id else maxID) m0 := by
  induction cmds generalizing m0 with
  | nil => simp
  | cons c rest ih =>
    simp only [List.foldl_cons]
    refine le_trans ?_ (ih _)
    split <;> omega

theorem foldl_maxID_ge_mem (cmds : List Command) (m0 : Int) (c : Command) (hc : c ∈ cmds) :
    c.id ≤ cmds.foldl (fun maxID c => if c.id > maxID then c.id else maxID) m0 := by
  induction cmds generalizing m0 with
  | nil => simp at hc
  | cons d rest ih =>
    simp only [List.foldl_cons]
    rcases List.mem_cons.mp hc with h | h
    · subst h
      refine le_trans ?_ (foldl_maxID_ge_init rest _)
      split <;> omega
    · exact ih _ h

theorem foldl_maxID_attained (cmds : List Command) (m0 : Int) :
    cmds.foldl (fun maxID c => if c.id > maxID then c.id else maxID) m0 = m0 ∨
      ∃ c ∈ cmds, c.id = cmds.foldl (fun maxID c => if c.id > maxID then c.id else maxID) m0 := by
  induction cmds generalizing m0 with
  | nil => simp
  | cons d rest ih =>
    simp only [List.foldl_cons]
    rcases ih (if d.id > m0 then d.id else m0) with h | ⟨c, hc, h⟩
    · by_cases hd : d.id > m0
      · right
        refine ⟨d, List.mem_cons_self _ _, ?_⟩
        rw [h]; simp [hd]
      · left
        rw [h]; simp [hd]
    · right
      exact ⟨c, List.mem_cons_of_mem _ hc, h⟩

theorem findMaxID_of_isMaxID (cmds : List Command) (m : Int) (hm : IsMaxID m cmds)
    (h0 : 0 ≤ m) : findMaxID cmds = m := by
  obtain ⟨⟨c, hc, hcm⟩, hle⟩ := hm
  have h1 : m ≤ findMaxID cmds := hcm ▸ foldl_maxID_ge_mem cmds 0 c hc
  rcases foldl_maxID_attained cmds 0 with h | ⟨d, hd, h⟩
  · unfold findMaxID; rw [h]; unfold findMaxID at h1; rw [h] at h1; omega
  · have := hle d hd
    unfold findMaxID at h1 ⊢
    omega

theorem findMaxID_of_nonpos (cmds : List Command) (h : ∀ c ∈ cmds, c.id ≤ 0) :
    findMaxID cmds = 0 := by
  have h0 : 0 ≤ findMaxID cmds := foldl_maxID_ge_init cmds 0
  rcases foldl_maxID_attained cmds 0 with h1 | ⟨d, hd, h1⟩
  · exact h1
  · have := h d hd
    unfold findMaxID at h0 ⊢
    omega

theorem wrapInt_of_inRange (x : Int) (h1 : minInt ≤ x) (h2 : x ≤ maxInt) : wrapInt x = x := by
  unfold wrapInt
  unfold minInt at h1
  unfold maxInt at h2
  simp only [intBits] at *
  norm_num at *
  omega

/-! ## C1: the id `AddCommand` assigns -/

/-- C1 as stated fails: with the single id -5 in the group the maximum id present is
-5, yet the command added gets id 1 and not -4; and with the largest machine
integer in the group the id added is the smallest machine integer. -/
theorem AddCommand_new_id_counterexample :
    (AddCommand "tools" "ls" "" "" "" [] (freshState (toolsDoc [bareCommand (-5)]))).1 = .ok () ∧
    IsMaxID (-5) [bareCommand (-5)] ∧
    idsShown (AddCommand "tools" "ls" "" "" "" [] (freshState (toolsDoc [bareCommand (-5)]))).2
      "tools" = some [-5, 1] ∧
    IsMaxID 9223372036854775807 [bareCommand 9223372036854775807] ∧
    idsShown (AddCommand "tools" "ls" "" "" "" []
      (freshState (toolsDoc [bareCommand 9223372036854775807]))).2 "tools"
      = some [9223372036854775807, -9223372036854775808] := by
  refine ⟨rfl, ?_, by decide, ?_, by decide⟩
  · exact ⟨⟨_, List.mem_singleton_self _, rfl⟩, by simp [bareCommand]⟩
  · exact ⟨⟨_, List.mem_singleton_self _, rfl⟩, by simp [bareCommand]⟩

/-- C1 (amended): after a successful `AddCommand` on an existing group, reading the
store again shows the group one command longer; the command added, the last
one, has id one plus the maximum id previously present when that maximum is
at least 0 and below the largest machine integer, and id 1 when the group
had no command with a positive id (in particular when it was empty). -/
theorem AddCommand_new_id (groupKey cmd description output note : String) (tags : List String)
    (σ σ1 σ' : State) (doc : CommandsFile) (g : Group)
    (hload : GetCommands σ = (.ok doc, σ1)) (hg : doc.lookup groupKey = some g)
    (hok : AddCommand groupKey cmd description output note tags σ = (.ok (), σ')) :
    ∃ doc' g' newCmd, GetCommands σ' = (.ok doc', σ') ∧ doc'.lookup groupKey = some g' ∧
      g'.commands.length = g.commands.length + 1 ∧
      g'.commands.getLast? = some newCmd ∧
      (∀ m, IsMaxID m g.commands → 0 ≤ m → m < maxInt → newCmd.id = m + 1) ∧
      ((∀ c ∈ g.commands, c.id ≤ 0) → newCmd.id = 1) := by
  rw [AddCommand_eq groupKey cmd description output note tags σ σ1 doc g hload hg] at hok
  obtain ⟨hget, _, _⟩ := writeBack_ok σ σ1 σ' doc _ hload hok
  refine ⟨_, _, newCommand g cmd description output note tags σ1.world.now, hget,
    lookupEntry_setEntry_same _ _ _, by simp, by simp, ?_, ?_⟩
  · intro m hm h0 hlt
    simp only [newCommand]
    rw [findMaxID_of_isMaxID g.commands m hm h0]
    apply wrapInt_of_inRange
    · unfold minInt; simp only [intBits]; norm_num; omega
    · omega
  · intro hnp
    simp only [newCommand]
    rw [findMaxID_of_nonpos g.commands hnp]
    decide

/-- Witness for C1: a group with ids 1, 2, 3 receives a command with id 4. -/
theorem AddCommand_new_id_witness :
    ∃ doc' g' newCmd,
      GetCommands (AddCommand "tools" "ls" "" "" "" []
        (freshState (toolsDoc [bareCommand 1, bareCommand 2, bareCommand 3]))).2
        = (.ok doc', (AddCommand "tools" "ls" "" "" "" []
          (freshState (toolsDoc [bareCommand 1, bareCommand 2, bareCommand 3]))).2) ∧
      doc'.lookup "tools" = some g' ∧
      g'.commands.length = 3 + 1 ∧
      g'.commands.getLast? = some newCmd ∧
      (∀ m, IsMaxID m [bareCommand 1, bareCommand 2, bareCommand 3] → 0 ≤ m → m < maxInt →
        newCmd.id = m + 1) ∧
      ((∀ c ∈ [bareCommand 1, bareCommand 2, bareCommand 3], c.id ≤ 0) → newCmd.id = 1) :=
  AddCommand_new_id "tools" "ls" "" "" "" []
    (freshState (toolsDoc [bareCommand 1, bareCommand 2, bareCommand 3]))
    { dataPath := "/data/commands.json",
      world := worldWith (toolsDoc [bareCommand 1, bareCommand 2, bareCommand 3]) }
    _ (toolsDoc [bareCommand 1, bareCommand 2, bareCommand 3])
    { name := "Tools", icon := "wrench", description := "",
      commands := [bareCommand 1, bareCommand 2, bareCommand 3] }
    rfl rfl rfl

/-! ## C2: `AddCommand` appends at the tail -/

/-- C2: after a successful `AddCommand` on an existing group, reading the store again
shows the group's previous command sequence, unchanged and in order, followed
by exactly one new command whose cmd, description, output, note and tags are
the arguments supplied. -/
theorem AddCommand_appends_at_tail (groupKey cmd description output note : String)
    (tags : List String) (σ σ1 σ' : State) (doc : CommandsFile) (g : Group)
    (hload : GetCommands σ = (.ok doc, σ1)) (hg : doc.lookup groupKey = some g)
    (hok : AddCommand groupKey cmd description output note tags σ = (.ok (), σ')) :
    ∃ doc' g' newCmd, GetCommands σ' = (.ok doc', σ') ∧ doc'.lookup groupKey = some g' ∧
      g'.commands = g.commands ++ [newCmd] ∧
      newCmd.cmd = cmd ∧ newCmd.description = description ∧ newCmd.output = output ∧
      newCmd.note = note ∧ newCmd.tags = tags := by
  rw [AddCommand_eq groupKey cmd description output note tags σ σ1 doc g hload hg] at hok
  obtain ⟨hget, _, _⟩ := writeBack_ok σ σ1 σ' doc _ hload hok
  exact ⟨_, _, newCommand g cmd description output note tags σ1.world.now, hget,
    lookupEntry_setEntry_same _ _ _, rfl, rfl, rfl, rfl, rfl, rfl⟩

/-- Witness for C2: adding "ls -la" to a group that holds ids 1 and 2. -/
theorem AddCommand_appends_at_tail_witness :
    ∃ doc' g' newCmd,
      GetCommands (AddCommand "tools" "ls -la" "list" "out" "n" ["fs"]
        (freshState (toolsDoc [bareCommand 1, bareCommand 2]))).2
        = (.ok doc', (AddCommand "tools" "ls -la" "list" "out" "n" ["fs"]
          (freshState (toolsDoc [bareCommand 1, bareCommand 2]))).2) ∧
      doc'.lookup "tools" = some g' ∧
      g'.commands = [bareCommand 1, bareCommand 2] ++ [newCmd] ∧
      newCmd.cmd = "ls -la" ∧ newCmd.description = "list" ∧ newCmd.output = "out" ∧
      newCmd.note = "n" ∧ newCmd.tags = ["fs"] :=
  AddCommand_appends_at_tail "tools" "ls -la" "list" "out" "n" ["fs"]
    (freshState (toolsDoc [bareCommand 1, bareCommand 2]))
    { dataPath := "/data/commands.json",
      world := worldWith (toolsDoc [bareCommand 1, bareCommand 2]) }
    _ (toolsDoc [bareCommand 1, bareCommand 2])
    { name := "Tools", icon := "wrench", description := "",
      commands := [bareCommand 1, bareCommand 2] }
    rfl rfl rfl

/-! ## C3: `UpdateCommand` rewrites the first match in place -/

theorem updateFirst_length (id : Int) (cmd description output note : String)
    (tags : List String) (cmds : List Command) :
    (updateFirst id cmd description output note tags cmds).length = cmds.length := by
  induction cmds with
  | nil => rfl
  | cons c rest ih =>
    by_cases h : c.id = id <;> simp [updateFirst, h, ih]

theorem updateFirst_getElem_id_created (id : Int) (cmd description output note : String)
    (tags : List String) (cmds : List Command) (i : Nat) (c : Command)
    (hc : cmds[i]? = some c) :
    ∃ c', (updateFirst id cmd description output note tags cmds)[i]? = some c' ∧
      c'.id = c.id ∧ c'.created = c.created := by
  induction cmds generalizing i with
  | nil => simp at hc
  | cons d rest ih =>
    by_cases h : d.id = id
    · cases i with
      | zero =>
        simp only [List.getElem?_cons_zero, Option.some.injEq] at hc
        subst hc
        simp [updateFirst, h]
      | succ n =>
        simp only [List.getElem?_cons_succ] at hc
        exact ⟨c, by simp [updateFirst, h, hc], rfl, rfl⟩
    · cases i with
      | zero =>
        simp only [List.getElem?_cons_zero, Option.some.injEq] at hc
        subst hc
        exact ⟨d, by simp [updateFirst, h], rfl, rfl⟩
      | succ n =>
        simp only [List.getElem?_cons_succ] at hc
        obtain ⟨c', h1, h2⟩ := ih n hc
        exact ⟨c', by simp [updateFirst, h, h1], h2⟩

theorem updateFirst_at_first_match (id : Int) (cmd description output note : String)
    (tags : List String) (cmds : List Command) (i : Nat) (c : Command)
    (hc : cmds[i]? = some c) (hfirst : IsFirstMatch id cmds i) :
    (updateFirst id cmd description output note tags cmds)[i]? =
      some { c with cmd := cmd, description := description, output := output, note := note,
                    tags := tags } := by
  induction cmds generalizing i with
  | nil => simp at hc
  | cons d rest ih =>
    obtain ⟨⟨c0, hc0, hid⟩, hbefore⟩ := hfirst
    rw [hc] at hc0
    cases hc0
    cases i with
    | zero =>
      simp only [List.getElem?_cons_zero, Option.some.injEq] at hc
      subst hc
      simp [updateFirst, hid]
    | succ n =>
      have hd : d.id ≠ id := hbefore 0 d (Nat.succ_pos n) (by simp)
      simp only [List.getElem?_cons_succ] at hc
      simp only [updateFirst, hd, if_false, List.getElem?_cons_succ]
      apply ih n hc
      refine ⟨⟨c, hc, hid⟩, ?_⟩
      intro j e hj he
      exact hbefore (j + 1) e (Nat.succ_lt_succ hj) (by simpa using he)

theorem updateFirst_elsewhere (id : Int) (cmd description output note : String)
    (tags : List String) (cmds : List Command) (i : Nat)
    (hnot : ¬ IsFirstMatch id cmds i) :
    (updateFirst id cmd description output note tags cmds)[i]? = cmds[i]? := by
  induction cmds generalizing i with
  | nil => rfl
  | cons d rest ih =>
    by_cases h : d.id = id
    · cases i with
      | zero =>
        exfalso
        apply hnot
        exact ⟨⟨d, by simp, h⟩, fun j _ hj => absurd hj (Nat.not_lt_zero j)⟩
      | succ n => simp [updateFirst, h]
    · cases i with
      | zero => simp [updateFirst, h]
      | succ n =>
        simp only [updateFirst, h, if_false, List.getElem?_cons_succ]
        apply ih
        intro hf
        apply hnot
        obtain ⟨⟨c, hc, hid⟩, hbefore⟩ := hf
        refine ⟨⟨c, by simpa using hc, hid⟩, ?_⟩
        intro j e hj he
        cases j with
        | zero =>
          simp only [List.getElem?_cons_zero, Option.some.injEq] at he
          subst he
          exact h
        | succ m =>
          exact hbefore m e (Nat.lt_of_succ_lt_succ hj) (by simpa using he)

/-- C3: after a successful `UpdateCommand` on an existing group, reading the store
again shows a command sequence of the same length with the id and created
timestamp at every position unchanged; the first command whose id matches
has cmd, description, output, note and tags set to the supplied values, and
every other position holds the same command as before. -/
theorem UpdateCommand_in_place (groupKey : String) (id : Int)
    (cmd description output note : String) (tags : List String)
    (σ σ1 σ' : State) (doc : CommandsFile) (g : Group)
    (hload : GetCommands σ = (.ok doc, σ1)) (hg : doc.lookup groupKey = some g)
    (hok : UpdateCommand groupKey id cmd description output note tags σ = (.ok (), σ')) :
    ∃ doc' g', GetCommands σ' = (.ok doc', σ') ∧ doc'.lookup groupKey = some g' ∧
      g'.commands.length = g.commands.length ∧
      (∀ (i : Nat) (c : Command), g.commands[i]? = some c →
        ∃ c' : Command, g'.commands[i]? = some c' ∧ c'.id = c.id ∧ c'.created = c.created) ∧
      (∀ (i : Nat) (c : Command), g.commands[i]? = some c → IsFirstMatch id g.commands i →
        g'.commands[i]? =
          some { c with cmd := cmd, description := description, output := output,
                        note := note, tags := tags }) ∧
      (∀ i : Nat, ¬ IsFirstMatch id g.commands i → g'.commands[i]? = g.commands[i]?) := by
  rw [UpdateCommand_eq groupKey id cmd description output note tags σ σ1 doc g hload hg] at hok
  obtain ⟨hget, _, _⟩ := writeBack_ok σ σ1 σ' doc _ hload hok
  refine ⟨_, _, hget, lookupEntry_setEntry_same _ _ _, ?_, ?_, ?_, ?_⟩
  · exact updateFirst_length _ _ _ _ _ _ _
  · intro i c hc
    exact updateFirst_getElem_id_created _ _ _ _ _ _ _ i c hc
  · intro i c hc hf
    exact updateFirst_at_first_match _ _ _ _ _ _ _ i c hc hf
  · intro i hn
    exact updateFirst_elsewhere _ _ _ _ _ _ _ i hn

/-- Witness for C3: updating id 2 in a group that holds ids 1, 2, 3. -/
theorem UpdateCommand_in_place_witness :
    ∃ doc' g',
      GetCommands (UpdateCommand "tools" 2 "pwd" "where" "o" "n" ["fs"]
        (freshState (toolsDoc [bareCommand 1, bareCommand 2, bareCommand 3]))).2
        = (.ok doc', (UpdateCommand "tools" 2 "pwd" "where" "o" "n" ["fs"]
          (freshState (toolsDoc [bareCommand 1, bareCommand 2, bareCommand 3]))).2) ∧
      doc'.lookup "tools" = some g' ∧
      g'.commands.length = [bareCommand 1, bareCommand 2, bareCommand 3].length ∧
      (∀ (i : Nat) (c : Command), [bareCommand 1, bareCommand 2, bareCommand 3][i]? = some c →
        ∃ c' : Command, g'.commands[i]? = some c' ∧ c'.id = c.id ∧ c'.created = c.created) ∧
      (∀ (i : Nat) (c : Command), [bareCommand 1, bareCommand 2, bareCommand 3][i]? = some c →
        IsFirstMatch 2 [bareCommand 1, bareCommand 2, bareCommand 3] i →
        g'.commands[i]? =
          some { c with cmd := "pwd", description := "where", output := "o",
                        note := "n", tags := ["fs"] }) ∧
      (∀ i : Nat, ¬ IsFirstMatch 2 [bareCommand 1, bareCommand 2, bareCommand 3] i →
        g'.commands[i]? = [bareCommand 1, bareCommand 2, bareCommand 3][i]?) :=
  UpdateCommand_in_place "tools" 2 "pwd" "where" "o" "n" ["fs"]
    (freshState (toolsDoc [bareCommand 1, bareCommand 2, bareCommand 3]))
    { dataPath := "/data/commands.json",
      world := worldWith (toolsDoc [bareCommand 1, bareCommand 2, bareCommand 3]) }
    _ (toolsDoc [bareCommand 1, bareCommand 2, bareCommand 3])
    { name := "Tools", icon := "wrench", description := "",
      commands := [bareCommand 1, bareCommand 2, bareCommand 3] }
    rfl rfl rfl

/-! ## C4: `DeleteCommand` removes the command and keeps the order -/

theorem removeFirst_eq_filter (id : Int) (cmds : List Command)
    (hnodup : (cmds.map (fun c => c.id)).Nodup) :
    removeFirst id cmds = cmds.filter (fun c => decide (c.id ≠ id)) := by
  induction cmds with
  | nil => rfl
  | cons c rest ih =>
    simp only [List.map_cons, List.nodup_cons, List.mem_map, not_exists, not_and] at hnodup
    by_cases h : c.id = id
    · simp only [removeFirst, h, if_true]
      rw [List.filter_cons]
      simp only [ne_eq, h, not_true_eq_false, decide_False, Bool.false_eq_true, if_false]
      symm
      rw [List.filter_eq_self]
      intro d hd
      have : ¬ d.id = c.id := hnodup.1 d hd
      rw [h] at this
      simpa using this
    · simp only [removeFirst, h, if_false]
      rw [List.filter_cons]
      simp [h, ih hnodup.2]

/-- C4: when the ids of an existing group are pairwise distinct, after a successful
`DeleteCommand(groupKey, id)` reading the store again shows no command with
that id in the group, and the group's command sequence is the original one
with that command taken out: all others present, unmodified, in their
original relative order. -/
theorem DeleteCommand_removes (groupKey : String) (id : Int)
    (σ σ1 σ' : State) (doc : CommandsFile) (g : Group)
    (hload : GetCommands σ = (.ok doc, σ1)) (hg : doc.lookup groupKey = some g)
    (hdistinct : (g.commands.map (fun c => c.id)).Nodup)
    (hok : DeleteCommand groupKey id σ = (.ok (), σ')) :
    ∃ doc' g', GetCommands σ' = (.ok doc', σ') ∧ doc'.lookup groupKey = some g' ∧
      (∀ c ∈ g'.commands, c.id ≠ id) ∧
      g'.commands = g.commands.filter (fun c => decide (c.id ≠ id)) := by
  rw [DeleteCommand_eq groupKey id σ σ1 doc g hload hg] at hok
  obtain ⟨hget, _, _⟩ := writeBack_ok σ σ1 σ' doc _ hload hok
  refine ⟨_, _, hget, lookupEntry_setEntry_same _ _ _, ?_, ?_⟩
  · intro c hc
    simp only [removeFirst_eq_filter id g.commands hdistinct, List.mem_filter] at hc
    simpa using hc.2
  · exact removeFirst_eq_filter id g.commands hdistinct

/-- Witness for C4: deleting id 2 from a group that holds ids 1, 2, 3. -/
theorem DeleteCommand_removes_witness :
    ∃ doc' g',
      GetCommands (DeleteCommand "tools" 2
        (freshState (toolsDoc [bareCommand 1, bareCommand 2, bareCommand 3]))).2
        = (.ok doc', (DeleteCommand "tools" 2
          (freshState (toolsDoc [bareCommand 1, bareCommand 2, bareCommand 3]))).2) ∧
      doc'.lookup "tools" = some g' ∧
      (∀ c ∈ g'.commands, c.id ≠ 2) ∧
      g'.commands = [bareCommand 1, bareCommand 2, bareCommand 3].filter
        (fun c => decide (c.id ≠ 2)) :=
  DeleteCommand_removes "tools" 2
    (freshState (toolsDoc [bareCommand 1, bareCommand 2, bareCommand 3]))
    { dataPath := "/data/commands.json",
      world := worldWith (toolsDoc [bareCommand 1, bareCommand 2, bareCommand 3]) }
    _ (toolsDoc [bareCommand 1, bareCommand 2, bareCommand 3])
    { name := "Tools", icon := "wrench", description := "",
      commands := [bareCommand 1, bareCommand 2, bareCommand 3] }
    rfl rfl (by decide) rfl

/-! ## C5: distinct, non-negative ids as an invariant -/

theorem GetCommands_again (σ σ1 : State) (doc : CommandsFile)
    (h : GetCommands σ = (.ok doc, σ1)) : GetCommands σ1 = (.ok doc, σ1) := by
  obtain ⟨_, hr, hi⟩ := GetCommands_ok σ σ1 doc h
  unfold GetCommands
  rw [hi]
  simp [hr]

theorem DocInv_set (doc : CommandsFile) (key : String) (g : Group)
    (hdoc : DocInv doc) (hg : GroupInv g) : DocInv (doc.set key g) := by
  intro k g' hk
  by_cases hkk : k = key
  · subst hkk
    have : (doc.set k g).lookup k = some g := lookupEntry_setEntry_same _ _ _
    rw [this] at hk
    cases hk
    exact hg
  · have : (doc.set key g).lookup k = doc.lookup k := lookupEntry_setEntry_other _ _ _ _ hkk
    rw [this] at hk
    exact hdoc k g' hk

theorem DocInv_erase (doc : CommandsFile) (key : String) (hdoc : DocInv doc) :
    DocInv (doc.erase key) := by
  intro k g' hk
  by_cases hkk : k = key
  · subst hkk
    have : (doc.erase k).lookup k = none := lookupEntry_eraseEntry_same _ _
    rw [this] at hk
    cases hk
  · have : (doc.erase key).lookup k = doc.lookup k := lookupEntry_eraseEntry_other _ _ _ hkk
    rw [this] at hk
    exact hdoc k g' hk

theorem updateFirst_ids (id : Int) (cmd description output note : String)
    (tags : List String) (cmds : List Command) :
    (updateFirst id cmd description output note tags cmds).map (fun c => c.id) =
      cmds.map (fun c => c.id) := by
  induction cmds with
  | nil => rfl
  | cons c rest ih =>
    by_cases h : c.id = id <;> simp [updateFirst, h, ih]

theorem removeFirst_sublist (id : Int) (cmds : List Command) :
    (removeFirst id cmds).Sublist cmds := by
  induction cmds with
  | nil => exact List.Sublist.refl _
  | cons c rest ih =>
    by_cases h : c.id = id
    · simp only [removeFirst, h, if_true]
      exact List.sublist_cons_self _ _
    · simp only [removeFirst, h, if_false]
      exact List.Sublist.cons₂ _ ih

theorem GroupInv_updateFirst (id : Int) (cmd description output note : String)
    (tags : List String) (g : Group) (hg : GroupInv g) :
    GroupInv { g with commands := updateFirst id cmd description output note tags g.commands } := by
  refine ⟨?_, ?_⟩
  · show ((updateFirst id cmd description output note tags g.commands).map _).Nodup
    rw [updateFirst_ids]
    exact hg.1
  · intro c hc
    have hmem : c.id ∈ (updateFirst id cmd description output note tags g.commands).map
        (fun c => c.id) := List.mem_map_of_mem (fun c => c.id) hc
    rw [updateFirst_ids] at hmem
    obtain ⟨d, hd, hdc⟩ := List.mem_map.mp hmem
    have := hg.2 d hd
    omega

theorem GroupInv_removeFirst (id : Int) (g : Group) (hg : GroupInv g) :
    GroupInv { g with commands := removeFirst id g.commands } := by
  refine ⟨?_, ?_⟩
  · exact List.Nodup.sublist (List.Sublist.map _ (removeFirst_sublist id g.commands)) hg.1
  · intro c hc
    exact hg.2 c ((removeFirst_sublist id g.commands).subset hc)

theorem newCommand_id_bounds (g : Group) (cmd description output note : String)
    (tags : List String) (now : Int) (hlt : ∀ c ∈ g.commands, c.id < maxInt) :
    1 ≤ (newCommand g cmd description output note tags now).id ∧
      ∀ c ∈ g.commands, c.id < (newCommand g cmd description output note tags now).id := by
  have h0 : 0 ≤ findMaxID g.commands := foldl_maxID_ge_init g.commands 0
  have hmax : findMaxID g.commands < maxInt := by
    rcases foldl_maxID_attained g.commands 0 with h | ⟨d, hd, h⟩
    · unfold findMaxID; rw [h]; decide
    · unfold findMaxID; rw [← h]; exact hlt d hd
  have hw : wrapInt (findMaxID g.commands + 1) = findMaxID g.commands + 1 := by
    apply wrapInt_of_inRange
    · unfold minInt; simp only [intBits]; norm_num; omega
    · omega
  simp only [newCommand, hw]
  refine ⟨by omega, ?_⟩
  intro c hc
  have := foldl_maxID_ge_mem g.commands 0 c hc
  unfold findMaxID
  omega

theorem GroupInv_append_new (g : Group) (cmd description output note : String)
    (tags : List String) (now : Int) (hg : GroupInv g)
    (hlt : ∀ c ∈ g.commands, c.id < maxInt) :
    GroupInv { g with commands := g.commands ++
      [newCommand g cmd description output note tags now] } := by
  obtain ⟨h1, h2⟩ := newCommand_id_bounds g cmd description output note tags now hlt
  refine ⟨?_, ?_⟩
  · show ((g.commands ++ [newCommand g cmd description output note tags now]).map _).Nodup
    rw [List.map_append, List.nodup_append]
    refine ⟨hg.1, by simp, ?_⟩
    intro a ha hb
    simp only [List.map_cons, List.map_nil, List.mem_singleton] at hb
    obtain ⟨d, hd, hda⟩ := List.mem_map.mp ha
    have := h2 d hd
    omega
  · intro c hc
    rcases List.mem_append.mp hc with h | h
    · exact hg.2 c h
    · simp only [List.mem_singleton] at h
      subst h
      omega

theorem DocInv_toolsDoc (cmds : List Command)
    (hn : (cmds.map (fun c => c.id)).Nodup) (h0 : ∀ c ∈ cmds, 0 ≤ c.id) :
    DocInv (toolsDoc cmds) := by
  intro key g hk
  unfold CommandsFile.lookup toolsDoc at hk
  simp only [lookupEntry] at hk
  by_cases hkey : "tools" = key
  · simp only [hkey, if_true, Option.some.injEq] at hk
    subst hk
    exact ⟨hn, h0⟩
  · simp [hkey] at hk

/-- C5 as stated fails: a group holding the largest machine integer as its only id
satisfies the invariant, `AddCommand` succeeds on it, and the id it assigns
is the smallest machine integer: negative, below 1 and below the id already
present. -/
theorem invariant_counterexample :
    DocInv (toolsDoc [bareCommand 9223372036854775807]) ∧
    (AddCommand "tools" "ls" "" "" "" []
      (freshState (toolsDoc [bareCommand 9223372036854775807]))).1 = .ok () ∧
    idsShown (AddCommand "tools" "ls" "" "" "" []
      (freshState (toolsDoc [bareCommand 9223372036854775807]))).2 "tools"
      = some [9223372036854775807, -9223372036854775808] ∧
    ¬ ((0 : Int) ≤ -9223372036854775808) := by
  refine ⟨DocInv_toolsDoc _ (by decide) ?_, rfl, by decide, by decide⟩
  intro c hc
  simp only [List.mem_singleton] at hc
  subst hc
  decide

/-- C5 (amended): if in every group of the loaded document the ids are pairwise
distinct and none is negative, the same holds of the document that
`GetCommands` shows after any successful `AddGroup`, `DeleteGroup`,
`UpdateCommand` or `DeleteCommand`, and after any successful `AddCommand` on a
group whose ids are all below the largest machine integer; the id such an
`AddCommand` assigns is at least 1 and strictly greater than every id
already in the group. -/
theorem invariant_preserved (σ σ1 : State) (doc : CommandsFile)
    (hload : GetCommands σ = (.ok doc, σ1)) (hinv : DocInv doc) :
    (∀ key name icon description σ', AddGroup key name icon description σ = (.ok (), σ') →
      ∃ doc', GetCommands σ' = (.ok doc', σ') ∧ DocInv doc') ∧
    (∀ key σ', DeleteGroup key σ = (.ok (), σ') →
      ∃ doc', GetCommands σ' = (.ok doc', σ') ∧ DocInv doc') ∧
    (∀ groupKey id cmd description output note tags σ',
      UpdateCommand groupKey id cmd description output note tags σ = (.ok (), σ') →
      ∃ doc', GetCommands σ' = (.ok doc', σ') ∧ DocInv doc') ∧
    (∀ groupKey id σ', DeleteCommand groupKey id σ = (.ok (), σ') →
      ∃ doc', GetCommands σ' = (.ok doc', σ') ∧ DocInv doc') ∧
    (∀ groupKey cmd description output note tags σ',
      (∀ g, doc.lookup groupKey = some g → ∀ c ∈ g.commands, c.id < maxInt) →
      AddCommand groupKey cmd description output note tags σ = (.ok (), σ') →
      ∃ doc', GetCommands σ' = (.ok doc', σ') ∧ DocInv doc' ∧
        ∀ g, doc.lookup groupKey = some g →
          ∃ g' newCmd, doc'.lookup groupKey = some g' ∧
            g'.commands = g.commands ++ [newCmd] ∧ 1 ≤ newCmd.id ∧
            ∀ c ∈ g.commands, c.id < newCmd.id) := by
  refine ⟨?_, ?_, ?_, ?_, ?_⟩
  · intro key name icon description σ' hok
    rw [AddGroup_eq key name icon description σ σ1 doc hload] at hok
    obtain ⟨hget, _, _⟩ := writeBack_ok σ σ1 σ' doc _ hload hok
    refine ⟨_, hget, DocInv_set doc key _ hinv ⟨?_, ?_⟩⟩
    · simp
    · intro c hc; simp at hc
  · intro key σ' hok
    rw [DeleteGroup_eq key σ σ1 doc hload] at hok
    obtain ⟨hget, _, _⟩ := writeBack_ok σ σ1 σ' doc _ hload hok
    exact ⟨_, hget, DocInv_erase doc key hinv⟩
  · intro groupKey id cmd description output note tags σ' hok
    cases hg : doc.lookup groupKey with
    | none =>
      have hσ : σ' = σ1 := by
        simp [UpdateCommand, hload, hg] at hok
        exact hok.symm
      subst hσ
      exact ⟨doc, GetCommands_again σ _ doc hload, hinv⟩
    | some g =>
      rw [UpdateCommand_eq groupKey id cmd description output note tags σ σ1 doc g hload hg]
        at hok
      obtain ⟨hget, _, _⟩ := writeBack_ok σ σ1 σ' doc _ hload hok
      exact ⟨_, hget, DocInv_set doc groupKey _ hinv
        (GroupInv_updateFirst id cmd description output note tags g (hinv groupKey g hg))⟩
  · intro groupKey id σ' hok
    cases hg : doc.lookup groupKey with
    | none =>
      have hσ : σ' = σ1 := by
        simp [DeleteCommand, hload, hg] at hok
        exact hok.symm
      subst hσ
      exact ⟨doc, GetCommands_again σ _ doc hload, hinv⟩
    | some g =>
      rw [DeleteCommand_eq groupKey id σ σ1 doc g hload hg] at hok
      obtain ⟨hget, _, _⟩ := writeBack_ok σ σ1 σ' doc _ hload hok
      exact ⟨_, hget, DocInv_set doc groupKey _ hinv
        (GroupInv_removeFirst id g (hinv groupKey g hg))⟩
  · intro groupKey cmd description output note tags σ' hlt hok
    cases hg : doc.lookup groupKey with
    | none =>
      have hσ : σ' = σ1 := by
        simp [AddCommand, hload, hg] at hok
        exact hok.symm
      subst hσ
      refine ⟨doc, GetCommands_again σ _ doc hload, hinv, ?_⟩
      intro g hgg
      cases hgg
    | some g =>
      rw [AddCommand_eq groupKey cmd description output note tags σ σ1 doc g hload hg] at hok
      obtain ⟨hget, _, _⟩ := writeBack_ok σ σ1 σ' doc _ hload hok
      refine ⟨_, hget, DocInv_set doc groupKey _ hinv
        (GroupInv_append_new g cmd description output note tags σ1.world.now
          (hinv groupKey g hg) (hlt g hg)), ?_⟩
      intro g2 hg2
      cases hg2
      obtain ⟨h1, h2⟩ := newCommand_id_bounds g cmd description output note tags
        σ1.world.now (hlt g hg)
      exact ⟨_, newCommand g cmd description output note tags σ1.world.now,
        lookupEntry_setEntry_same _ _ _, rfl, h1, h2⟩

/-- Witness for C5: a group with ids 1, 2, 3 satisfies the invariant, and so does
what the store shows after deleting id 2 and after adding a command. -/
theorem invariant_preserved_witness :
    DocInv (toolsDoc [bareCommand 1, bareCommand 2, bareCommand 3]) ∧
    (∃ doc', GetCommands (DeleteCommand "tools" 2
        (freshState (toolsDoc [bareCommand 1, bareCommand 2, bareCommand 3]))).2
        = (.ok doc', (DeleteCommand "tools" 2
          (freshState (toolsDoc [bareCommand 1, bareCommand 2, bareCommand 3]))).2) ∧
      DocInv doc') ∧
    (∃ doc', GetCommands (AddCommand "tools" "ls" "" "" "" []
        (freshState (toolsDoc [bareCommand 1, bareCommand 2, bareCommand 3]))).2
        = (.ok doc', (AddCommand "tools" "ls" "" "" "" []
          (freshState (toolsDoc [bareCommand 1, bareCommand 2, bareCommand 3]))).2) ∧
      DocInv doc' ∧
      ∀ g, (toolsDoc [bareCommand 1, bareCommand 2, bareCommand 3]).lookup "tools" = some g →
        ∃ g' newCmd, doc'.lookup "tools" = some g' ∧
          g'.commands = g.commands ++ [newCmd] ∧ 1 ≤ newCmd.id ∧
          ∀ c ∈ g.commands, c.id < newCmd.id) :=
  ⟨DocInv_toolsDoc _ (by decide) (by decide),
   (invariant_preserved (freshState (toolsDoc [bareCommand 1, bareCommand 2, bareCommand 3]))
      { dataPath := "/data/commands.json",
        world := worldWith (toolsDoc [bareCommand 1, bareCommand 2, bareCommand 3]) }
      (toolsDoc [bareCommand 1, bareCommand 2, bareCommand 3]) rfl
      (DocInv_toolsDoc _ (by decide) (by decide))).2.2.2.1 "tools" 2 _ rfl,
   (invariant_preserved (freshState (toolsDoc [bareCommand 1, bareCommand 2, bareCommand 3]))
      { dataPath := "/data/commands.json",
        world := worldWith (toolsDoc [bareCommand 1, bareCommand 2, bareCommand 3]) }
      (toolsDoc [bareCommand 1, bareCommand 2, bareCommand 3]) rfl
      (DocInv_toolsDoc _ (by decide) (by decide))).2.2.2.2 "tools" "ls" "" "" "" [] _
      (by
        intro g hg
        have hg' : some (models.Group.mk "Tools" "wrench" ""
            [bareCommand 1, bareCommand 2, bareCommand 3]) = some g := hg
        cases hg'
        decide)
      rfl⟩

/-! ## C6: `AddGroup` inserts or overwrites -/

/-- C6: after a successful `AddGroup(key, name, icon, description)`, whether or not
the key was present, reading the store again shows at `key` exactly the
given name, icon and description with an empty command sequence, and at
every other key the same group (or absence) as before. -/
theorem AddGroup_upsert (key name icon description : String) (σ σ1 σ' : State)
    (doc : CommandsFile) (hload : GetCommands σ = (.ok doc, σ1))
    (hok : AddGroup key name icon description σ = (.ok (), σ')) :
    ∃ doc', GetCommands σ' = (.ok doc', σ') ∧
      doc'.lookup key =
        some { name := name, icon := icon, description := description, commands := [] } ∧
      ∀ other, other ≠ key → doc'.lookup other = doc.lookup other := by
  rw [AddGroup_eq key name icon description σ σ1 doc hload] at hok
  obtain ⟨hget, _, _⟩ := writeBack_ok σ σ1 σ' doc _ hload hok
  exact ⟨_, hget, lookupEntry_setEntry_same _ _ _,
    fun other h => lookupEntry_setEntry_other _ _ _ _ h⟩

/-- Witness for C6: `AddGroup` on the key "tools", which already holds two commands. -/
theorem AddGroup_upsert_witness :
    ∃ doc', GetCommands (AddGroup "tools" "T" "i" "d"
        (freshState (toolsDoc [bareCommand 1, bareCommand 2]))).2
        = (.ok doc', (AddGroup "tools" "T" "i" "d"
          (freshState (toolsDoc [bareCommand 1, bareCommand 2]))).2) ∧
      doc'.lookup "tools" =
        some { name := "T", icon := "i", description := "d", commands := [] } ∧
      ∀ other, other ≠ "tools" →
        doc'.lookup other = (toolsDoc [bareCommand 1, bareCommand 2]).lookup other :=
  AddGroup_upsert "tools" "T" "i" "d"
    (freshState (toolsDoc [bareCommand 1, bareCommand 2]))
    { dataPath := "/data/commands.json",
      world := worldWith (toolsDoc [bareCommand 1, bareCommand 2]) }
    _ (toolsDoc [bareCommand 1, bareCommand 2]) rfl rfl

/-! ## C7: a missing group is a silent no-op -/

/-- C7: when the store document can be read and has no group at `groupKey`,
`AddCommand`, `UpdateCommand` and `DeleteCommand` each return success and
leave the world as it was: no file changes and nothing is handed to
`WriteCommands`. -/
theorem absent_group_noop (groupKey : String) (id : Int)
    (cmd description output note : String) (tags : List String)
    (σ σ1 : State) (doc : CommandsFile)
    (hload : GetCommands σ = (.ok doc, σ1)) (habsent : doc.lookup groupKey = none) :
    AddCommand groupKey cmd description output note tags σ = (.ok (), σ1) ∧
    UpdateCommand groupKey id cmd description output note tags σ = (.ok (), σ1) ∧
    DeleteCommand groupKey id σ = (.ok (), σ1) ∧
    σ1.world = σ.world := by
  refine ⟨?_, ?_, ?_, (GetCommands_ok σ σ1 doc hload).1⟩
  · simp [AddCommand, hload, habsent]
  · simp [UpdateCommand, hload, habsent]
  · simp [DeleteCommand, hload, habsent]

/-- Witness for C7: the three calls on the group "g1" of an empty store. -/
theorem absent_group_noop_witness :
    AddCommand "g1" "ls" "d" "o" "n" ["t"] (freshState CommandsFile.empty)
      = (.ok (), { dataPath := "/data/commands.json",
                   world := worldWith CommandsFile.empty }) ∧
    UpdateCommand "g1" 1 "ls" "d" "o" "n" ["t"] (freshState CommandsFile.empty)
      = (.ok (), { dataPath := "/data/commands.json",
                   world := worldWith CommandsFile.empty }) ∧
    DeleteCommand "g1" 1 (freshState CommandsFile.empty)
      = (.ok (), { dataPath := "/data/commands.json",
                   world := worldWith CommandsFile.empty }) ∧
    worldWith CommandsFile.empty = (freshState CommandsFile.empty).world :=
  absent_group_noop "g1" 1 "ls" "d" "o" "n" ["t"] (freshState CommandsFile.empty)
    { dataPath := "/data/commands.json", world := worldWith CommandsFile.empty }
    CommandsFile.empty rfl rfl

/-! ## C8: a missing id is a silent no-op that still writes back -/

theorem updateFirst_of_no_match (id : Int) (cmd description output note : String)
    (tags : List String) (cmds : List Command) (h : ∀ c ∈ cmds, c.id ≠ id) :
    updateFirst id cmd description output note tags cmds = cmds := by
  induction cmds with
  | nil => rfl
  | cons c rest ih =>
    have hc : c.id ≠ id := h c (List.mem_cons_self _ _)
    simp only [updateFirst, hc, if_false]
    rw [ih (fun d hd => h d (List.mem_cons_of_mem _ hd))]

theorem removeFirst_of_no_match (id : Int) (cmds : List Command) (h : ∀ c ∈ cmds, c.id ≠ id) :
    removeFirst id cmds = cmds := by
  induction cmds with
  | nil => rfl
  | cons c rest ih =>
    have hc : c.id ≠ id := h c (List.mem_cons_self _ _)
    simp only [removeFirst, hc, if_false]
    rw [ih (fun d hd => h d (List.mem_cons_of_mem _ hd))]

/-- C8: when the group exists and none of its commands carries `id`,
`UpdateCommand` and `DeleteCommand` do exactly what writing the loaded
document back does: they hand the loaded document itself to `WriteCommands`
at the active path and return its result, so they fail only if that write
fails. -/
theorem missing_id_writes_back_loaded (groupKey : String) (id : Int)
    (cmd description output note : String) (tags : List String)
    (σ σ1 : State) (doc : CommandsFile) (g : Group)
    (hload : GetCommands σ = (.ok doc, σ1)) (hg : doc.lookup groupKey = some g)
    (hmiss : ∀ c ∈ g.commands, c.id ≠ id) :
    UpdateCommand groupKey id cmd description output note tags σ =
      ((data.WriteCommands σ1.dataPath doc σ1.world).1,
        { σ1 with world := (data.WriteCommands σ1.dataPath doc σ1.world).2 }) ∧
    DeleteCommand groupKey id σ =
      ((data.WriteCommands σ1.dataPath doc σ1.world).1,
        { σ1 with world := (data.WriteCommands σ1.dataPath doc σ1.world).2 }) := by
  constructor
  · rw [UpdateCommand_eq groupKey id cmd description output note tags σ σ1 doc g hload hg,
      updateFirst_of_no_match id cmd description output note tags g.commands hmiss,
      CommandsFile.set_of_lookup doc groupKey _ hg]
    rfl
  · rw [DeleteCommand_eq groupKey id σ σ1 doc g hload hg,
      removeFirst_of_no_match id g.commands hmiss,
      CommandsFile.set_of_lookup doc groupKey _ hg]
    rfl

/-- Witness for C8: id 7 in a group that holds ids 1, 2, 3. -/
theorem missing_id_writes_back_loaded_witness :
    UpdateCommand "tools" 7 "pwd" "d" "o" "n" ["t"]
        (freshState (toolsDoc [bareCommand 1, bareCommand 2, bareCommand 3])) =
      ((data.WriteCommands "/data/commands.json"
          (toolsDoc [bareCommand 1, bareCommand 2, bareCommand 3])
          (worldWith (toolsDoc [bareCommand 1, bareCommand 2, bareCommand 3]))).1,
        { dataPath := "/data/commands.json",
          world := (data.WriteCommands "/data/commands.json"
            (toolsDoc [bareCommand 1, bareCommand 2, bareCommand 3])
            (worldWith (toolsDoc [bareCommand 1, bareCommand 2, bareCommand 3]))).2 }) ∧
    DeleteCommand "tools" 7
        (freshState (toolsDoc [bareCommand 1, bareCommand 2, bareCommand 3])) =
      ((data.WriteCommands "/data/commands.json"
          (toolsDoc [bareCommand 1, bareCommand 2, bareCommand 3])
          (worldWith (toolsDoc [bareCommand 1, bareCommand 2, bareCommand 3]))).1,
        { dataPath := "/data/commands.json",
          world := (data.WriteCommands "/data/commands.json"
            (toolsDoc [bareCommand 1, bareCommand 2, bareCommand 3])
            (worldWith (toolsDoc [bareCommand 1, bareCommand 2, bareCommand 3]))).2 }) :=
  missing_id_writes_back_loaded "tools" 7 "pwd" "d" "o" "n" ["t"]
    (freshState (toolsDoc [bareCommand 1, bareCommand 2, bareCommand 3]))
    { dataPath := "/data/commands.json",
      world := worldWith (toolsDoc [bareCommand 1, bareCommand 2, bareCommand 3]) }
    (toolsDoc [bareCommand 1, bareCommand 2, bareCommand 3])
    { name := "Tools", icon := "wrench", description := "",
      commands := [bareCommand 1, bareCommand 2, bareCommand 3] }
    rfl rfl (by decide)

/-! ## C9 and C10: `Search` -/

theorem containsChars_iff (sub s : List Char) :
    strings.containsChars sub s = true ↔ sub <:+: s := by
  induction s with
  | nil =>
    simp only [strings.containsChars, List.isPrefixOf_iff_prefix, List.prefix_nil,
      List.infix_nil]
  | cons c cs ih =>
    simp only [strings.containsChars, Bool.or_eq_true, List.isPrefixOf_iff_prefix, ih,
      List.infix_cons_iff]

theorem Contains_iff (s substr : String) :
    strings.Contains s substr = true ↔ substr.data <:+: s.data :=
  containsChars_iff substr.data s.data

theorem containsTag_iff (lowerRune : Char → Char) (tags : List String) (query : String) :
    containsTag lowerRune tags query = true ↔
      ∃ tag ∈ tags, query.data <:+: (strings.ToLower lowerRune tag).data := by
  induction tags with
  | nil => simp [containsTag]
  | cons t rest ih =>
    by_cases h : strings.Contains (strings.ToLower lowerRune t) query = true
    · simp only [containsTag, h, if_true, List.mem_cons, exists_eq_or_imp, true_iff]
      exact Or.inl ((Contains_iff _ _).mp h)
    · have hn : ¬ query.data <:+: (strings.ToLower lowerRune t).data :=
        fun hh => h ((Contains_iff _ _).mpr hh)
      simp only [containsTag, h, if_false, List.mem_cons, exists_eq_or_imp, hn, false_or]
      exact ih

theorem matchesQuery_iff (lowerRune : Char → Char) (query : String) (c : Command) :
    matchesQuery lowerRune (strings.ToLower lowerRune query) c = true ↔
      QueryOccurs lowerRune query c := by
  unfold matchesQuery QueryOccurs
  simp only [Bool.or_eq_true, Contains_iff, containsTag_iff, or_assoc]

theorem inner_loop_eq (lowerRune : Char → Char) (query key name : String)
    (cmds : List Command) (acc : List SearchResult) :
    cmds.foldl (fun results cmd =>
      if matchesQuery lowerRune (strings.ToLower lowerRune query) cmd then
        results ++ [{ groupKey := key, groupName := name, command := cmd }]
      else results) acc =
    acc ++ (cmds.filter (fun c => decide (QueryOccurs lowerRune query c))).map
      (fun c => { groupKey := key, groupName := name, command := c }) := by
  induction cmds generalizing acc with
  | nil => simp
  | cons c rest ih =>
    simp only [List.foldl_cons]
    rw [ih]
    by_cases h : matchesQuery lowerRune (strings.ToLower lowerRune query) c = true
    · have hq : QueryOccurs lowerRune query c := (matchesQuery_iff _ _ _).mp h
      simp [h, hq, List.filter_cons]
    · have hq : ¬ QueryOccurs lowerRune query c := fun hh => h ((matchesQuery_iff _ _ _).mpr hh)
      simp [h, hq, List.filter_cons]

theorem outer_loop_eq (lowerRune : Char → Char) (query : String)
    (groups : List (String × Group)) (acc : List SearchResult) :
    groups.foldl (fun results entry =>
      entry.2.commands.foldl (fun results cmd =>
        if matchesQuery lowerRune (strings.ToLower lowerRune query) cmd then
          results ++ [{ groupKey := entry.1, groupName := entry.2.name, command := cmd }]
        else results) results) acc =
    acc ++ groups.flatMap (fun e => groupResults lowerRune query e.1 e.2) := by
  induction groups generalizing acc with
  | nil => simp
  | cons e rest ih =>
    simp only [List.foldl_cons, List.flatMap_cons]
    rw [ih, inner_loop_eq]
    simp [groupResults, List.append_assoc]

theorem searchLoop_eq (lowerRune : Char → Char) (query : String)
    (groups : List (String × Group)) :
    searchLoop lowerRune (strings.ToLower lowerRune query) groups =
      groups.flatMap (fun e => groupResults lowerRune query e.1 e.2) := by
  unfold searchLoop
  rw [outer_loop_eq]
  simp

theorem Search_eq (lowerRune : Char → Char) (query : String) (σ σ1 : State)
    (doc : CommandsFile) (hload : GetCommands σ = (.ok doc, σ1)) :
    Search lowerRune query σ =
      (.ok (doc.groups.flatMap (fun e => groupResults lowerRune query e.1 e.2)), σ1) := by
  simp [Search, hload, searchLoop_eq]

theorem filter_groupResults_same (lowerRune : Char → Char) (query key : String) (g : Group) :
    (groupResults lowerRune query key g).filter (fun r => decide (r.groupKey = key)) =
      groupResults lowerRune query key g := by
  rw [List.filter_eq_self]
  intro r hr
  unfold groupResults at hr
  obtain ⟨c, _, hc⟩ := List.mem_map.mp hr
  subst hc
  simp

theorem filter_groupResults_other (lowerRune : Char → Char) (query key other : String)
    (g : Group) (h : other ≠ key) :
    (groupResults lowerRune query other g).filter (fun r => decide (r.groupKey = key)) = [] := by
  rw [List.filter_eq_nil_iff]
  intro r hr
  unfold groupResults at hr
  obtain ⟨c, _, hc⟩ := List.mem_map.mp hr
  subst hc
  simpa using h

theorem filter_key_results (lowerRune : Char → Char) (query key : String)
    (l : List (String × Group)) (hn : (keysOf l).Nodup) :
    (l.flatMap (fun e => groupResults lowerRune query e.1 e.2)).filter
        (fun r => decide (r.groupKey = key)) =
      match lookupEntry key l with
      | none => []
      | some g => groupResults lowerRune query key g := by
  induction l with
  | nil => simp [lookupEntry]
  | cons e rest ih =>
    obtain ⟨k, g⟩ := e
    simp only [keysOf, List.map_cons, List.nodup_cons] at hn
    have ih' := ih hn.2
    simp only [List.flatMap_cons, List.filter_append]
    by_cases hk : k = key
    · subst hk
      have hnone : lookupEntry k rest = none := (lookupEntry_eq_none_iff k rest).mpr hn.1
      rw [hnone] at ih'
      rw [ih', filter_groupResults_same]
      simp [lookupEntry]
    · rw [filter_groupResults_other lowerRune query key k g hk, ih']
      simp [lookupEntry, hk]

/-- C9: for every store document, query and group key, the results of `Search`
that carry the group key are exactly the group's commands, in stored order,
for which the lower-cased query occurs in the lower-cased cmd, the
lower-cased description or at least one lower-cased tag; each carries the
group's name and the command unmodified, and no result is returned for a key
without a group.  Output and note play no part, so every result returned
matches in cmd, description or a tag. -/
theorem Search_per_group (lowerRune : Char → Char) (query groupKey : String)
    (σ σ1 : State) (doc : CommandsFile) (hload : GetCommands σ = (.ok doc, σ1)) :
    ∃ results, Search lowerRune query σ = (.ok results, σ1) ∧
      results.filter (fun r => decide (r.groupKey = groupKey)) =
        (match doc.lookup groupKey with
         | none => []
         | some g =>
           (g.commands.filter (fun c => decide (QueryOccurs lowerRune query c))).map
             (fun c => { groupKey := groupKey, groupName := g.name, command := c })) ∧
      ∀ r ∈ results, QueryOccurs lowerRune query r.command := by
  refine ⟨_, Search_eq lowerRune query σ σ1 doc hload, ?_, ?_⟩
  · exact filter_key_results lowerRune query groupKey doc.groups doc.nodup
  · intro r hr
    obtain ⟨e, _, he⟩ := List.mem_flatMap.mp hr
    unfold groupResults at he
    obtain ⟨c, hc, hcr⟩ := List.mem_map.mp he
    subst hcr
    simpa using (List.mem_filter.mp hc).2

/-- Witness for C9: the query "LS" on the three sample commands, with the ASCII case
table. -/
theorem Search_per_group_witness :
    ∃ results, Search Char.toLower "LS" (freshState (toolsDoc sampleCommands)) =
        (.ok results, { dataPath := "/data/commands.json",
                        world := worldWith (toolsDoc sampleCommands) }) ∧
      results.filter (fun r => decide (r.groupKey = "tools")) =
        (match (toolsDoc sampleCommands).lookup "tools" with
         | none => []
         | some g =>
           (g.commands.filter (fun c => decide (QueryOccurs Char.toLower "LS" c))).map
             (fun c => { groupKey := "tools", groupName := g.name, command := c })) ∧
      ∀ r ∈ results, QueryOccurs Char.toLower "LS" r.command :=
  Search_per_group Char.toLower "LS" "tools" (freshState (toolsDoc sampleCommands))
    { dataPath := "/data/commands.json", world := worldWith (toolsDoc sampleCommands) }
    (toolsDoc sampleCommands) rfl

theorem QueryOccurs_empty (lowerRune : Char → Char) (c : Command) :
    QueryOccurs lowerRune "" c :=
  Or.inl List.nil_infix

theorem groupResults_empty (lowerRune : Char → Char) (key : String) (g : Group) :
    groupResults lowerRune "" key g =
      g.commands.map (fun c => { groupKey := key, groupName := g.name, command := c }) := by
  unfold groupResults
  congr 1
  rw [List.filter_eq_self]
  intro c _
  simpa using QueryOccurs_empty lowerRune c

/-- C10: for every store document, `Search("")` returns every command of every group
exactly once: the results are, group after group, each group's whole command
sequence in order (every command with its group's key and name, whatever its
fields hold); their number is the total number of commands over all groups,
and the results carrying a group's key are that group's commands position
by position. -/
theorem Search_empty_query (lowerRune : Char → Char) (σ σ1 : State) (doc : CommandsFile)
    (hload : GetCommands σ = (.ok doc, σ1)) :
    ∃ results, Search lowerRune "" σ = (.ok results, σ1) ∧
      results = doc.groups.flatMap (fun e => e.2.commands.map
        (fun c => { groupKey := e.1, groupName := e.2.name, command := c })) ∧
      results.length = (doc.groups.map (fun e => e.2.commands.length)).sum ∧
      ∀ groupKey g, doc.lookup groupKey = some g →
        results.filter (fun r => decide (r.groupKey = groupKey)) =
          g.commands.map
            (fun c => { groupKey := groupKey, groupName := g.name, command := c }) := by
  refine ⟨_, Search_eq lowerRune "" σ σ1 doc hload, ?_, ?_, ?_⟩
  · simp only [groupResults_empty]
  · rw [List.length_flatMap]
    congr 1
    apply List.map_congr_left
    intro e _
    simp [groupResults_empty]
  · intro groupKey g hg
    have h := filter_key_results lowerRune "" groupKey doc.groups doc.nodup
    unfold CommandsFile.lookup at hg
    rw [hg] at h
    simp only at h
    rw [h, groupResults_empty]

/-- Witness for C10: the empty query on the three sample commands returns all three. -/
theorem Search_empty_query_witness :
    ∃ results, Search Char.toLower "" (freshState (toolsDoc sampleCommands)) =
        (.ok results, { dataPath := "/data/commands.json",
                        world := worldWith (toolsDoc sampleCommands) }) ∧
      results = (toolsDoc sampleCommands).groups.flatMap (fun e => e.2.commands.map
        (fun c => { groupKey := e.1, groupName := e.2.name, command := c })) ∧
      results.length =
        ((toolsDoc sampleCommands).groups.map (fun e => e.2.commands.length)).sum ∧
      ∀ groupKey g, (toolsDoc sampleCommands).lookup groupKey = some g →
        results.filter (fun r => decide (r.groupKey = groupKey)) =
          g.commands.map
            (fun c => { groupKey := groupKey, groupName := g.name, command := c }) :=
  Search_empty_query Char.toLower (freshState (toolsDoc sampleCommands))
    { dataPath := "/data/commands.json", world := worldWith (toolsDoc sampleCommands) }
    (toolsDoc sampleCommands) rfl

/-! ## C11: how far `Search` ignores letter case -/

theorem ToLower_ToUpper (lowerRune upperRune : Char → Char) (query : String)
    (h : ∀ c ∈ query.data, lowerRune (upperRune c) = lowerRune c) :
    strings.ToLower lowerRune (strings.ToUpper upperRune query) =
      strings.ToLower lowerRune query := by
  unfold strings.ToLower strings.ToUpper
  simp only [List.map_map]
  congr 1
  apply List.map_congr_left
  intro c hc
  exact h c hc

theorem Search_of_same_lower (lowerRune : Char → Char) (query query' : String) (σ : State)
    (h : strings.ToLower lowerRune query' = strings.ToLower lowerRune query) :
    Search lowerRune query' σ = Search lowerRune query σ := by
  unfold Search
  rw [h]

theorem containsTag_eq_any (lowerRune : Char → Char) (tags : List String) (query : String) :
    containsTag lowerRune tags query =
      (tags.map (strings.ToLower lowerRune)).any (fun t => strings.Contains t query) := by
  induction tags with
  | nil => rfl
  | cons t rest ih =>
    by_cases h : strings.Contains (strings.ToLower lowerRune t) query = true
    · simp [containsTag, h]
    · simp [containsTag, h, ih]

/-- C11 as stated fails on the case tables of the Go library: the upper case of the
query "ı" (small dotless i) is "I", whose lower case is "i"; so the query "ı"
selects a command whose cmd is "ı" while the same query in upper case selects
nothing, and the same command with its cmd in upper case is no longer
selected by "ı". -/
theorem Search_case_counterexample :
    strings.ToUpper goUpperRune "ı" = "I" ∧
    cmdsFound (Search goLowerRune "ı" (freshState (toolsDoc [textCommand 1 "ı"])))
      = some ["ı"] ∧
    cmdsFound (Search goLowerRune (strings.ToUpper goUpperRune "ı")
      (freshState (toolsDoc [textCommand 1 "ı"]))) = some [] ∧
    cmdsFound (Search goLowerRune "ı"
      (freshState (toolsDoc [textCommand 1 (strings.ToUpper goUpperRune "ı")]))) = some [] := by
  decide

theorem ascii_round_trip_table : ∀ n : Fin 128,
    Char.toLower (Char.toUpper (Char.ofNat n.val)) = Char.toLower (Char.ofNat n.val) ∧
      (Char.toUpper (Char.ofNat n.val)).toNat < 128 := by
  decide

theorem AsciiCase_round_trip (lowerRune upperRune : Char → Char)
    (h : AsciiCase lowerRune upperRune) (c : Char) (hc : c.toNat < 128) :
    lowerRune (upperRune c) = lowerRune c := by
  obtain ⟨hl, hu⟩ := h c hc
  have key := ascii_round_trip_table ⟨c.toNat, hc⟩
  simp only [Char.ofNat_toNat] at key
  rw [hu, (h (Char.toUpper c) key.2).1, key.1, hl]

theorem ToLower_ToUpper_of_ascii (lowerRune upperRune : Char → Char)
    (h : AsciiCase lowerRune upperRune) (s : String) (hs : IsAscii s) :
    strings.ToLower lowerRune (strings.ToUpper upperRune s) = strings.ToLower lowerRune s :=
  ToLower_ToUpper lowerRune upperRune s
    (fun c hc => AsciiCase_round_trip lowerRune upperRune h c (hs c hc))

theorem AsciiCase_go : AsciiCase goLowerRune goUpperRune := by
  intro c hc
  refine ⟨rfl, ?_⟩
  unfold goUpperRune
  have hne : c ≠ Char.ofNat 0x131 := by
    intro heq
    rw [heq] at hc
    exact absurd hc (by decide)
  simp [hne]

/-- C11 (amended): `Search` sees the query and a command's cmd, description and tags
only through their lower-cased forms.  Two queries with the same lower-cased
form give exactly the same results; so does the query converted to upper
case whenever, for each of its letters, the lower case of the letter's upper
case is the letter's own lower case.  Replacing a command's cmd, description
and tags by texts with the same lower-cased forms does not change whether
the command is selected.  With case tables that act on ASCII as those of the
Go library do, it follows for every query made of ASCII characters that its
upper case gives exactly the same results, and for every command whose cmd,
description and tags are made of ASCII characters that converting them to
upper case does not change whether the command is selected. -/
theorem Search_case_insensitive (lowerRune upperRune : Char → Char) (query : String)
    (σ : State) :
    ((∀ c ∈ query.data, lowerRune (upperRune c) = lowerRune c) →
      Search lowerRune (strings.ToUpper upperRune query) σ = Search lowerRune query σ) ∧
    (∀ query', strings.ToLower lowerRune query' = strings.ToLower lowerRune query →
      Search lowerRune query' σ = Search lowerRune query σ) ∧
    (∀ c c' : Command,
      strings.ToLower lowerRune c'.cmd = strings.ToLower lowerRune c.cmd →
      strings.ToLower lowerRune c'.description = strings.ToLower lowerRune c.description →
      c'.tags.map (strings.ToLower lowerRune) = c.tags.map (strings.ToLower lowerRune) →
      matchesQuery lowerRune (strings.ToLower lowerRune query) c' =
        matchesQuery lowerRune (strings.ToLower lowerRune query) c) ∧
    (AsciiCase lowerRune upperRune → IsAscii query →
      Search lowerRune (strings.ToUpper upperRune query) σ = Search lowerRune query σ) ∧
    (AsciiCase lowerRune upperRune → ∀ c : Command,
      IsAscii c.cmd → IsAscii c.description → (∀ t ∈ c.tags, IsAscii t) →
      matchesQuery lowerRune (strings.ToLower lowerRune query)
          { c with cmd := strings.ToUpper upperRune c.cmd,
                   description := strings.ToUpper upperRune c.description,
                   tags := c.tags.map (strings.ToUpper upperRune) } =
        matchesQuery lowerRune (strings.ToLower lowerRune query) c) := by
  have part3 : ∀ c c' : Command,
      strings.ToLower lowerRune c'.cmd = strings.ToLower lowerRune c.cmd →
      strings.ToLower lowerRune c'.description = strings.ToLower lowerRune c.description →
      c'.tags.map (strings.ToLower lowerRune) = c.tags.map (strings.ToLower lowerRune) →
      matchesQuery lowerRune (strings.ToLower lowerRune query) c' =
        matchesQuery lowerRune (strings.ToLower lowerRune query) c := by
    intro c c' h1 h2 h3
    unfold matchesQuery
    rw [h1, h2, containsTag_eq_any, containsTag_eq_any, h3]
  refine ⟨?_, ?_, part3, ?_, ?_⟩
  · intro h
    exact Search_of_same_lower lowerRune query _ σ (ToLower_ToUpper lowerRune upperRune query h)
  · intro query' h
    exact Search_of_same_lower lowerRune query query' σ h
  · intro hascii hq
    exact Search_of_same_lower lowerRune query _ σ
      (ToLower_ToUpper_of_ascii lowerRune upperRune hascii query hq)
  · intro hascii c hcmd hdesc htags
    apply part3
    · exact ToLower_ToUpper_of_ascii lowerRune upperRune hascii c.cmd hcmd
    · exact ToLower_ToUpper_of_ascii lowerRune upperRune hascii c.description hdesc
    · show (c.tags.map (strings.ToUpper upperRune)).map (strings.ToLower lowerRune) = _
      rw [List.map_map]
      apply List.map_congr_left
      intro t ht
      exact ToLower_ToUpper_of_ascii lowerRune upperRune hascii t (htags t ht)

/-- Witness for C11: with the case tables of the Go library, the query "ls" and its
upper case "LS" on the sample commands, and the first sample command with
its texts in upper case. -/
theorem Search_case_insensitive_witness :
    AsciiCase goLowerRune goUpperRune ∧ IsAscii "ls" ∧
    (∀ c ∈ "pwd".data, goLowerRune (goUpperRune c) = goLowerRune c) ∧
    Search goLowerRune (strings.ToUpper goUpperRune "pwd")
        (freshState (toolsDoc sampleCommands))
      = Search goLowerRune "pwd" (freshState (toolsDoc sampleCommands)) ∧
    Search goLowerRune (strings.ToUpper goUpperRune "ls") (freshState (toolsDoc sampleCommands))
      = Search goLowerRune "ls" (freshState (toolsDoc sampleCommands)) ∧
    Search goLowerRune "Ls" (freshState (toolsDoc sampleCommands))
      = Search goLowerRune "ls" (freshState (toolsDoc sampleCommands)) ∧
    matchesQuery goLowerRune (strings.ToLower goLowerRune "ls")
        { textCommand 1 "ls -la" with
            cmd := strings.ToUpper goUpperRune (textCommand 1 "ls -la").cmd,
            description := strings.ToUpper goUpperRune (textCommand 1 "ls -la").description,
            tags := (textCommand 1 "ls -la").tags.map (strings.ToUpper goUpperRune) }
      = matchesQuery goLowerRune (strings.ToLower goLowerRune "ls") (textCommand 1 "ls -la") :=
  ⟨AsciiCase_go, by decide, by decide,
   (Search_case_insensitive goLowerRune goUpperRune "pwd"
      (freshState (toolsDoc sampleCommands))).1 (by decide),
   (Search_case_insensitive goLowerRune goUpperRune "ls"
      (freshState (toolsDoc sampleCommands))).2.2.2.1 AsciiCase_go (by decide),
   (Search_case_insensitive goLowerRune goUpperRune "ls"
      (freshState (toolsDoc sampleCommands))).2.1 "Ls" (by decide),
   (Search_case_insensitive goLowerRune goUpperRune "ls"
      (freshState (toolsDoc sampleCommands))).2.2.2.2 AsciiCase_go (textCommand 1 "ls -la")
      (by decide) (by decide) (by decide)⟩

/-! ## C12 and C13: ids after a deletion -/

theorem IsMaxID_filter (m id : Int) (cmds : List Command) (hmax : IsMaxID m cmds)
    (hne : id ≠ m) : IsMaxID m (cmds.filter (fun c => decide (c.id ≠ id))) := by
  obtain ⟨⟨c, hc, hcm⟩, hle⟩ := hmax
  refine ⟨⟨c, ?_, hcm⟩, ?_⟩
  · rw [List.mem_filter]
    refine ⟨hc, ?_⟩
    have : c.id ≠ id := by rw [hcm]; exact fun h => hne h.symm
    simpa using this
  · intro d hd
    exact hle d (List.mem_filter.mp hd).1

/-- C12 as stated fails at the top of the integer range: in a group with the distinct
positive ids 1 and 9223372036854775807, deleting id 1 (not the maximum) and
adding a command gives the new command the smallest machine integer, not the
old maximum plus one. -/
theorem delete_then_add_counterexample :
    IsMaxID 9223372036854775807 [bareCommand 1, bareCommand 9223372036854775807] ∧
    (DeleteCommand "tools" 1
      (freshState (toolsDoc [bareCommand 1, bareCommand 9223372036854775807]))).1 = .ok () ∧
    (AddCommand "tools" "ls" "" "" "" [] (DeleteCommand "tools" 1
      (freshState (toolsDoc [bareCommand 1, bareCommand 9223372036854775807]))).2).1 = .ok () ∧
    idsShown (AddCommand "tools" "ls" "" "" "" [] (DeleteCommand "tools" 1
      (freshState (toolsDoc [bareCommand 1, bareCommand 9223372036854775807]))).2).2 "tools"
      = some [9223372036854775807, -9223372036854775808] := by
  refine ⟨⟨⟨bareCommand 9223372036854775807, by simp, rfl⟩, ?_⟩, rfl, rfl, by decide⟩
  intro c hc
  simp only [List.mem_cons, List.mem_singleton, List.not_mem_nil, or_false] at hc
  rcases hc with h | h <;> subst h <;> decide

/-- C12 (amended): in a group with pairwise-distinct positive ids whose maximum is
below the largest machine integer, successfully deleting a command whose id
is not the maximum and then successfully adding a command leaves the other
commands as they were, in order, followed by the new command, whose id is
the old maximum plus one and differs from the deleted id. -/
theorem delete_then_add_id (groupKey : String) (id : Int)
    (cmd description output note : String) (tags : List String)
    (σ σ1 σ2 σ3 : State) (doc : CommandsFile) (g : Group) (m : Int)
    (hload : GetCommands σ = (.ok doc, σ1)) (hg : doc.lookup groupKey = some g)
    (hdistinct : (g.commands.map (fun c => c.id)).Nodup)
    (hpos : ∀ c ∈ g.commands, 0 < c.id)
    (hmax : IsMaxID m g.commands) (hlt : m < maxInt)
    (hmem : ∃ c ∈ g.commands, c.id = id) (hne : id ≠ m)
    (hdel : DeleteCommand groupKey id σ = (.ok (), σ2))
    (hadd : AddCommand groupKey cmd description output note tags σ2 = (.ok (), σ3)) :
    ∃ doc3 g3 newCmd, GetCommands σ3 = (.ok doc3, σ3) ∧ doc3.lookup groupKey = some g3 ∧
      g3.commands = g.commands.filter (fun c => decide (c.id ≠ id)) ++ [newCmd] ∧
      newCmd.id = m + 1 ∧ newCmd.id ≠ id := by
  have hm0 : 0 ≤ m := by
    obtain ⟨⟨c, hc, hcm⟩, _⟩ := hmax
    have := hpos c hc
    omega
  rw [DeleteCommand_eq groupKey id σ σ1 doc g hload hg] at hdel
  obtain ⟨hget2, _, _⟩ := writeBack_ok σ σ1 σ2 doc _ hload hdel
  have hg2 := lookupEntry_setEntry_same groupKey
    { g with commands := removeFirst id g.commands } doc.groups
  rw [AddCommand_eq groupKey cmd description output note tags σ2 σ2 _ _ hget2 hg2] at hadd
  obtain ⟨hget3, _, _⟩ := writeBack_ok σ2 σ2 σ3 _ _ hget2 hadd
  have hmax2 : IsMaxID m (removeFirst id g.commands) := by
    rw [removeFirst_eq_filter id g.commands hdistinct]
    exact IsMaxID_filter m id g.commands hmax hne
  have hid : (newCommand { g with commands := removeFirst id g.commands }
      cmd description output note tags σ2.world.now).id = m + 1 := by
    simp only [newCommand]
    rw [findMaxID_of_isMaxID _ m hmax2 hm0]
    apply wrapInt_of_inRange
    · unfold minInt; simp only [intBits]; norm_num; omega
    · omega
  refine ⟨_, _, _, hget3, lookupEntry_setEntry_same _ _ _, ?_, hid, ?_⟩
  · show removeFirst id g.commands ++ _ = _
    rw [removeFirst_eq_filter id g.commands hdistinct]
  · rw [hid]
    obtain ⟨c, hc, hcid⟩ := hmem
    have := hmax.2 c hc
    omega

/-- Witness for C12: ids 1, 2, 3; delete 2; add; the ids are then 1, 3, 4. -/
theorem delete_then_add_id_witness :
    idsShown (AddCommand "tools" "ls" "" "" "" [] (DeleteCommand "tools" 2
      (freshState (toolsDoc [bareCommand 1, bareCommand 2, bareCommand 3]))).2).2 "tools"
      = some [1, 3, 4] ∧
    ∃ doc3 g3 newCmd,
      GetCommands (AddCommand "tools" "ls" "" "" "" [] (DeleteCommand "tools" 2
        (freshState (toolsDoc [bareCommand 1, bareCommand 2, bareCommand 3]))).2).2
        = (.ok doc3, (AddCommand "tools" "ls" "" "" "" [] (DeleteCommand "tools" 2
          (freshState (toolsDoc [bareCommand 1, bareCommand 2, bareCommand 3]))).2).2) ∧
      doc3.lookup "tools" = some g3 ∧
      g3.commands = [bareCommand 1, bareCommand 2, bareCommand 3].filter
        (fun c => decide (c.id ≠ 2)) ++ [newCmd] ∧
      newCmd.id = 3 + 1 ∧ newCmd.id ≠ 2 :=
  ⟨by decide,
   delete_then_add_id "tools" 2 "ls" "" "" "" []
    (freshState (toolsDoc [bareCommand 1, bareCommand 2, bareCommand 3]))
    { dataPath := "/data/commands.json",
      world := worldWith (toolsDoc [bareCommand 1, bareCommand 2, bareCommand 3]) }
    _ _ (toolsDoc [bareCommand 1, bareCommand 2, bareCommand 3])
    { name := "Tools", icon := "wrench", description := "",
      commands := [bareCommand 1, bareCommand 2, bareCommand 3] }
    3 rfl rfl (by decide) (by decide)
    ⟨⟨bareCommand 3, by simp, rfl⟩, by decide⟩ (by decide)
    ⟨bareCommand 2, by simp, rfl⟩ (by decide) rfl rfl⟩

/-- C13: ids can be reused.  In the group with ids 1, 2, 3, deleting the command
with the maximum id 3 and then adding a command both succeed, and the new
command gets id 3 again, the id just deleted. -/
theorem deleted_max_id_reused :
    idsShown (freshState (toolsDoc [bareCommand 1, bareCommand 2, bareCommand 3])) "tools"
      = some [1, 2, 3] ∧
    (DeleteCommand "tools" 3
      (freshState (toolsDoc [bareCommand 1, bareCommand 2, bareCommand 3]))).1 = .ok () ∧
    idsShown (DeleteCommand "tools" 3
      (freshState (toolsDoc [bareCommand 1, bareCommand 2, bareCommand 3]))).2 "tools"
      = some [1, 2] ∧
    (AddCommand "tools" "ls" "" "" "" [] (DeleteCommand "tools" 3
      (freshState (toolsDoc [bareCommand 1, bareCommand 2, bareCommand 3]))).2).1 = .ok () ∧
    idsShown (AddCommand "tools" "ls" "" "" "" [] (DeleteCommand "tools" 3
      (freshState (toolsDoc [bareCommand 1, bareCommand 2, bareCommand 3]))).2).2 "tools"
      = some [1, 2, 3] := by
  refine ⟨by decide, rfl, by decide, rfl, by decide⟩

/-! ## C14 and C15: `InitializeDefault` -/

theorem SetDataPath_ok (path : String) (τ σ1 : State)
    (h : SetDataPath path τ = (.ok (), σ1)) :
    σ1 = { dataPath := path,
           world := { τ.world with configFile := .valid { dataPath := path } } } := by
  unfold SetDataPath data.WriteConfig at h
  by_cases hw : τ.world.configWritable = true
  · simp only [if_pos hw, Prod.mk.injEq, true_and] at h
    exact h.symm
  · simp [hw] at h

theorem SetDataPath_result (path : String) (τ : State) (p : String) (σ' : State)
    (h : (match SetDataPath path τ with
          | (.error err, σ1) => ((.error err : Except Err String), σ1)
          | (.ok (), σ1) => (.ok path, σ1)) = (.ok p, σ')) :
    p = path ∧
      σ' = { dataPath := path,
             world := { τ.world with configFile := .valid { dataPath := path } } } := by
  cases hs : SetDataPath path τ with
  | mk r σ1 =>
    cases r with
    | error e => simp [hs] at h
    | ok u =>
      cases u
      simp only [hs, Prod.mk.injEq, Except.ok.injEq] at h
      obtain ⟨h1, h2⟩ := h
      subst h2
      exact ⟨h1.symm, SetDataPath_ok path τ σ1 hs⟩

theorem ReadConfig_ok (w : World) (c : Config) (h : data.ReadConfig w = .ok (some c)) :
    w.configFile = .valid c := by
  unfold data.ReadConfig at h
  cases hc : w.configFile with
  | absent => simp [hc] at h
  | malformed => simp [hc] at h
  | valid d =>
    simp only [hc, Except.ok.injEq, Option.some.injEq] at h
    rw [h]

/-- What a successful `InitializeDefault` leaves: a config naming the returned path,
which is also the active path. -/
theorem InitializeDefault_ok (σ σ' : State) (p : String)
    (h : InitializeDefault σ = (.ok p, σ')) :
    σ'.world.configFile = .valid { dataPath := p } ∧ σ'.dataPath = p := by
  unfold InitializeDefault at h
  by_cases hc : data.HasConfig σ.world = true
  · simp only [hc, if_true] at h
    cases hr : data.ReadConfig σ.world with
    | error e => simp [hr] at h
    | ok oc =>
      cases oc with
      | none => simp [hr] at h
      | some c =>
        simp only [hr, Prod.mk.injEq, Except.ok.injEq] at h
        obtain ⟨h1, h2⟩ := h
        subst h2
        subst h1
        exact ⟨ReadConfig_ok σ.world c hr, rfl⟩
  · simp only [hc, Bool.false_eq_true, if_false] at h
    cases hd : data.GetDefaultDataPath σ.world with
    | error e => simp [hd] at h
    | ok dp =>
      simp only [hd] at h
      cases he : data.EnsureDataDir dp σ.world with
      | error e => simp [he] at h
      | ok u =>
        cases u
        simp only [he] at h
        cases hrc : data.ReadCommands dp σ.world with
        | error e =>
          simp only [hrc] at h
          cases hw : data.WriteCommands dp CommandsFile.empty σ.world with
          | mk r w =>
            cases r with
            | error e2 => simp [hw] at h
            | ok u2 =>
              cases u2
              simp only [hw] at h
              obtain ⟨h1, h2⟩ := SetDataPath_result dp _ p σ' h
              subst h1
              subst h2
              exact ⟨rfl, rfl⟩
        | ok doc =>
          simp only [hrc] at h
          obtain ⟨h1, h2⟩ := SetDataPath_result dp _ p σ' h
          subst h1
          subst h2
          exact ⟨rfl, rfl⟩

theorem InitializeDefault_of_config (σ : State) (p : String)
    (hc : σ.world.configFile = .valid { dataPath := p }) (hp : σ.dataPath = p) :
    InitializeDefault σ = (.ok p, σ) := by
  unfold InitializeDefault data.HasConfig data.ReadConfig
  simp only [hc, if_true, Prod.mk.injEq, true_and]
  cases σ with
  | mk dataPath world =>
    simp only at hp
    subst hp
    rfl

/-- C14: `InitializeDefault` is idempotent.  Whatever the config and store files hold,
if a first call succeeds and returns `p`, an immediately following second
call also succeeds and returns `p`, the active path is `p`, and the second
call leaves the service and the world (config document, every store file,
record of writes) exactly as the first call left them. -/
theorem InitializeDefault_idempotent (σ σ' : State) (p : String)
    (hfirst : InitializeDefault σ = (.ok p, σ')) :
    InitializeDefault σ' = (.ok p, σ') ∧ σ'.dataPath = p ∧
      (InitializeDefault σ').2.world.configFile = σ'.world.configFile ∧
      (∀ path, (InitializeDefault σ').2.world.storeFiles path = σ'.world.storeFiles path) := by
  obtain ⟨hc, hp⟩ := InitializeDefault_ok σ σ' p hfirst
  have h2 := InitializeDefault_of_config σ' p hc hp
  refine ⟨h2, hp, ?_, ?_⟩
  · rw [h2]
  · intro path
    rw [h2]

/-- Witness for C14: first run on a machine without config and without store file. -/
theorem InitializeDefault_idempotent_witness :
    InitializeDefault (InitializeDefault (NewArsenalService (unconfiguredWorld .absent))).2
      = (.ok "/home/u/.nuke-arsenal/commands.json",
         (InitializeDefault (NewArsenalService (unconfiguredWorld .absent))).2) ∧
    (InitializeDefault (NewArsenalService (unconfiguredWorld .absent))).2.dataPath
      = "/home/u/.nuke-arsenal/commands.json" ∧
    (InitializeDefault
        (InitializeDefault (NewArsenalService (unconfiguredWorld .absent))).2).2.world.configFile
      = (InitializeDefault (NewArsenalService (unconfiguredWorld .absent))).2.world.configFile ∧
    (∀ path, (InitializeDefault
        (InitializeDefault (NewArsenalService (unconfiguredWorld .absent))).2).2.world.storeFiles
          path
      = (InitializeDefault (NewArsenalService (unconfiguredWorld .absent))).2.world.storeFiles
          path) :=
  InitializeDefault_idempotent (NewArsenalService (unconfiguredWorld .absent)) _
    "/home/u/.nuke-arsenal/commands.json" rfl

theorem SetDataPath_frame (path : String) (τ : State) :
    (SetDataPath path τ).2.world.storeFiles = τ.world.storeFiles ∧
      (SetDataPath path τ).2.world.storeWrites = τ.world.storeWrites := by
  unfold SetDataPath data.WriteConfig
  by_cases hw : τ.world.configWritable = true
  · simp [hw]
  · simp [hw]

theorem SetDataPath_step_state (path : String) (τ : State) :
    (match SetDataPath path τ with
      | (.error err, σ1) => ((.error err : Except Err String), σ1)
      | (.ok (), σ1) => (.ok path, σ1)).2 = (SetDataPath path τ).2 := by
  cases hs : SetDataPath path τ with
  | mk r σ1 =>
    cases r with
    | error e => rfl
    | ok u => cases u; rfl

theorem WriteCommands_record (path : String) (doc : CommandsFile) (w : World) :
    (data.WriteCommands path doc w).2.storeWrites = w.storeWrites ++ [(path, doc)] := by
  unfold data.WriteCommands
  by_cases hw : w.storeWritable path = true
  · simp only [if_pos hw]
  · simp only [if_neg hw]

/-- C15: `InitializeDefault` never overwrites a readable store file.  When no config
exists and the file at the default data path reads as a store document, a
successful call returns the default path, leaves every store file as it was,
hands nothing to `WriteCommands`, and writes a config pointing at the
default path.  In every run, either no store file changes and nothing is
handed to `WriteCommands`, or no config existed, reading the default path
failed, and the one document handed to `WriteCommands` is the empty one, at
the default path. -/
theorem InitializeDefault_keeps_readable_store (σ : State) :
    (∀ dp doc p σ', data.HasConfig σ.world = false →
      data.GetDefaultDataPath σ.world = .ok dp →
      data.ReadCommands dp σ.world = .ok doc →
      InitializeDefault σ = (.ok p, σ') →
      p = dp ∧ σ'.world.storeFiles = σ.world.storeFiles ∧
        σ'.world.storeWrites = σ.world.storeWrites ∧
        σ'.world.configFile = .valid { dataPath := dp } ∧ σ'.dataPath = dp) ∧
    (((InitializeDefault σ).2.world.storeFiles = σ.world.storeFiles ∧
        (InitializeDefault σ).2.world.storeWrites = σ.world.storeWrites) ∨
      ∃ dp e, data.HasConfig σ.world = false ∧
        data.GetDefaultDataPath σ.world = .ok dp ∧
        data.ReadCommands dp σ.world = .error e ∧
        (InitializeDefault σ).2.world.storeWrites =
          σ.world.storeWrites ++ [(dp, CommandsFile.empty)]) := by
  constructor
  · intro dp doc p σ' hno hdp hread hok
    unfold InitializeDefault at hok
    simp only [hno, Bool.false_eq_true, if_false, hdp] at hok
    cases he : data.EnsureDataDir dp σ.world with
    | error e => simp [he] at hok
    | ok u =>
      cases u
      simp only [he, hread] at hok
      obtain ⟨h1, h2⟩ := SetDataPath_result dp σ p σ' hok
      subst h1
      subst h2
      exact ⟨rfl, rfl, rfl, rfl, rfl⟩
  · unfold InitializeDefault
    by_cases hc : data.HasConfig σ.world = true
    · left
      simp only [hc, if_true]
      cases hr : data.ReadConfig σ.world with
      | error e => exact ⟨rfl, rfl⟩
      | ok oc =>
        cases oc with
        | none => exact ⟨rfl, rfl⟩
        | some c => exact ⟨rfl, rfl⟩
    · have hno : data.HasConfig σ.world = false := by simpa using hc
      simp only [hno, Bool.false_eq_true, if_false]
      cases hd : data.GetDefaultDataPath σ.world with
      | error e => left; exact ⟨rfl, rfl⟩
      | ok dp =>
        simp only
        cases he : data.EnsureDataDir dp σ.world with
        | error e => left; exact ⟨rfl, rfl⟩
        | ok u =>
          cases u
          simp only
          cases hrc : data.ReadCommands dp σ.world with
          | ok doc =>
            left
            simp only
            rw [SetDataPath_step_state]
            exact SetDataPath_frame dp σ
          | error e =>
            right
            refine ⟨dp, e, trivial, rfl, hrc, ?_⟩
            simp only
            have hrec := WriteCommands_record dp CommandsFile.empty σ.world
            cases hw : data.WriteCommands dp CommandsFile.empty σ.world with
            | mk r w =>
              rw [hw] at hrec
              cases r with
              | error e2 => exact hrec
              | ok u2 =>
                cases u2
                simp only
                rw [SetDataPath_step_state, (SetDataPath_frame dp _).2]
                exact hrec

/-- Witness for C15: no config, and the default path holds the three sample commands. -/
theorem InitializeDefault_keeps_readable_store_witness :
    "/home/u/.nuke-arsenal/commands.json" = "/home/u/.nuke-arsenal/commands.json" ∧
    (InitializeDefault (NewArsenalService
        (unconfiguredWorld (.valid (toolsDoc sampleCommands))))).2.world.storeFiles
      = (NewArsenalService
        (unconfiguredWorld (.valid (toolsDoc sampleCommands)))).world.storeFiles ∧
    (InitializeDefault (NewArsenalService
        (unconfiguredWorld (.valid (toolsDoc sampleCommands))))).2.world.storeWrites
      = (NewArsenalService
        (unconfiguredWorld (.valid (toolsDoc sampleCommands)))).world.storeWrites ∧
    (InitializeDefault (NewArsenalService
        (unconfiguredWorld (.valid (toolsDoc sampleCommands))))).2.world.configFile
      = .valid { dataPath := "/home/u/.nuke-arsenal/commands.json" } ∧
    (InitializeDefault (NewArsenalService
        (unconfiguredWorld (.valid (toolsDoc sampleCommands))))).2.dataPath
      = "/home/u/.nuke-arsenal/commands.json" :=
  (InitializeDefault_keeps_readable_store
    (NewArsenalService (unconfiguredWorld (.valid (toolsDoc sampleCommands))))).1
    "/home/u/.nuke-arsenal/commands.json" (toolsDoc sampleCommands)
    "/home/u/.nuke-arsenal/commands.json" _ rfl rfl rfl rfl

/-- A file at the default path that exists but does not parse counts as unreadable:
with no config, `InitializeDefault` succeeds and hands the empty document to
`WriteCommands` at the default path, although the comments in the source
speak of a file that does not exist. -/
theorem InitializeDefault_replaces_unparsable_store :
    (InitializeDefault (NewArsenalService (unconfiguredWorld .malformed))).1
      = .ok "/home/u/.nuke-arsenal/commands.json" ∧
    (InitializeDefault (NewArsenalService (unconfiguredWorld .malformed))).2.world.storeWrites
      = [("/home/u/.nuke-arsenal/commands.json", CommandsFile.empty)] :=
  ⟨rfl, rfl⟩

/-! ## C16: `DeleteGroup` -/

/-- C16: after a successful `DeleteGroup(key)` reading the store again shows no entry
at `key` and at every other key the same group as before; when `key` was
absent the call does exactly what writing the loaded document back does, so
it is no error and the document written equals the document loaded. -/
theorem DeleteGroup_removes_entry (key : String) (σ σ1 : State) (doc : CommandsFile)
    (hload : GetCommands σ = (.ok doc, σ1)) :
    (∀ σ', DeleteGroup key σ = (.ok (), σ') →
      ∃ doc', GetCommands σ' = (.ok doc', σ') ∧ doc'.lookup key = none ∧
        ∀ other, other ≠ key → doc'.lookup other = doc.lookup other) ∧
    (doc.lookup key = none →
      DeleteGroup key σ =
        ((data.WriteCommands σ1.dataPath doc σ1.world).1,
          { σ1 with world := (data.WriteCommands σ1.dataPath doc σ1.world).2 })) := by
  constructor
  · intro σ' hok
    rw [DeleteGroup_eq key σ σ1 doc hload] at hok
    obtain ⟨hget, _, _⟩ := writeBack_ok σ σ1 σ' doc _ hload hok
    exact ⟨_, hget, lookupEntry_eraseEntry_same _ _,
      fun other h => lookupEntry_eraseEntry_other _ _ _ h⟩
  · intro hnone
    rw [DeleteGroup_eq key σ σ1 doc hload]
    have : doc.erase key = doc :=
      CommandsFile.ext_groups _ _ (eraseEntry_of_lookupEntry_none key doc.groups hnone)
    rw [this]
    rfl

/-- Witness for C16: deleting the group "tools", and deleting the absent group "g1". -/
theorem DeleteGroup_removes_entry_witness :
    (∃ doc', GetCommands (DeleteGroup "tools" (freshState (toolsDoc sampleCommands))).2
        = (.ok doc', (DeleteGroup "tools" (freshState (toolsDoc sampleCommands))).2) ∧
      doc'.lookup "tools" = none ∧
      ∀ other, other ≠ "tools" → doc'.lookup other = (toolsDoc sampleCommands).lookup other) ∧
    DeleteGroup "g1" (freshState (toolsDoc sampleCommands)) =
      ((data.WriteCommands "/data/commands.json" (toolsDoc sampleCommands)
          (worldWith (toolsDoc sampleCommands))).1,
        { dataPath := "/data/commands.json",
          world := (data.WriteCommands "/data/commands.json" (toolsDoc sampleCommands)
            (worldWith (toolsDoc sampleCommands))).2 }) :=
  ⟨(DeleteGroup_removes_entry "tools" (freshState (toolsDoc sampleCommands))
      { dataPath := "/data/commands.json", world := worldWith (toolsDoc sampleCommands) }
      (toolsDoc sampleCommands) rfl).1 _ rfl,
   (DeleteGroup_removes_entry "g1" (freshState (toolsDoc sampleCommands))
      { dataPath := "/data/commands.json", world := worldWith (toolsDoc sampleCommands) }
      (toolsDoc sampleCommands) rfl).2 rfl⟩

/-! ## C17: failures of loading propagate -/

theorem ensureDataPath_world (σ : State) : (ensureDataPath σ).2.world = σ.world := by
  unfold ensureDataPath
  by_cases hp : σ.dataPath = ""
  · simp only [hp, if_true]
    cases hc : data.ReadConfig σ.world with
    | error e => rfl
    | ok oc =>
      cases oc with
      | none => rfl
      | some c => rfl
  · simp only [hp, if_false]

theorem GetCommands_of_failure (σ σ1 : State) (e : Err)
    (hfail : ensureDataPath σ = (.error e, σ1) ∨
      (ensureDataPath σ = (.ok (), σ1) ∧
        data.ReadCommands σ1.dataPath σ1.world = .error e)) :
    GetCommands σ = (.error e, σ1) ∧ σ1.world = σ.world := by
  have hw := ensureDataPath_world σ
  rcases hfail with h | ⟨h, hr⟩
  · rw [h] at hw
    exact ⟨by simp [GetCommands, h], hw⟩
  · rw [h] at hw
    exact ⟨by simp [GetCommands, h, hr], hw⟩

/-- C17: if resolving the active path fails, or the path resolves and reading the
store document fails, then `AddGroup`, `DeleteGroup`, `AddCommand`,
`UpdateCommand`, `DeleteCommand` and `Search` each return that same error,
and the world is as before the call: no file has changed and nothing was
handed to `WriteCommands`. -/
theorem load_failure_propagates (lowerRune : Char → Char) (key name icon query : String)
    (id : Int) (cmd description output note : String) (tags : List String)
    (σ σ1 : State) (e : Err)
    (hfail : ensureDataPath σ = (.error e, σ1) ∨
      (ensureDataPath σ = (.ok (), σ1) ∧
        data.ReadCommands σ1.dataPath σ1.world = .error e)) :
    AddGroup key name icon description σ = (.error e, σ1) ∧
    DeleteGroup key σ = (.error e, σ1) ∧
    AddCommand key cmd description output note tags σ = (.error e, σ1) ∧
    UpdateCommand key id cmd description output note tags σ = (.error e, σ1) ∧
    DeleteCommand key id σ = (.error e, σ1) ∧
    Search lowerRune query σ = (.error e, σ1) ∧
    σ1.world = σ.world := by
  obtain ⟨hget, hw⟩ := GetCommands_of_failure σ σ1 e hfail
  refine ⟨?_, ?_, ?_, ?_, ?_, ?_, hw⟩
  · simp [AddGroup, hget]
  · simp [DeleteGroup, hget]
  · simp [AddCommand, hget]
  · simp [UpdateCommand, hget]
  · simp [DeleteCommand, hget]
  · simp [Search, hget]

/-- Witness for C17: the six calls when the store file holds bytes that do not parse. -/
theorem load_failure_propagates_witness :
    AddGroup "g" "n" "i" "d" (NewArsenalService malformedStoreWorld)
      = (.error .StoreReadError,
         { dataPath := "/data/commands.json", world := malformedStoreWorld }) ∧
    DeleteGroup "g" (NewArsenalService malformedStoreWorld)
      = (.error .StoreReadError,
         { dataPath := "/data/commands.json", world := malformedStoreWorld }) ∧
    AddCommand "g" "c" "d" "o" "n" ["t"] (NewArsenalService malformedStoreWorld)
      = (.error .StoreReadError,
         { dataPath := "/data/commands.json", world := malformedStoreWorld }) ∧
    UpdateCommand "g" 1 "c" "d" "o" "n" ["t"] (NewArsenalService malformedStoreWorld)
      = (.error .StoreReadError,
         { dataPath := "/data/commands.json", world := malformedStoreWorld }) ∧
    DeleteCommand "g" 1 (NewArsenalService malformedStoreWorld)
      = (.error .StoreReadError,
         { dataPath := "/data/commands.json", world := malformedStoreWorld }) ∧
    Search Char.toLower "q" (NewArsenalService malformedStoreWorld)
      = (.error .StoreReadError,
         { dataPath := "/data/commands.json", world := malformedStoreWorld }) ∧
    malformedStoreWorld = (NewArsenalService malformedStoreWorld).world :=
  load_failure_propagates Char.toLower "g" "n" "i" "q" 1 "c" "d" "o" "n" ["t"]
    (NewArsenalService malformedStoreWorld)
    { dataPath := "/data/commands.json", world := malformedStoreWorld }
    .StoreReadError (Or.inr ⟨rfl, rfl⟩)

/-! ## C18: `SetDataPath` -/

/-- C18: `SetDataPath(path)` returns what `WriteConfig` returns for a config whose
dataPath is `path`, and leaves the world as that call leaves it.  When
`WriteConfig` succeeds the config document holds `path` and the active path
is `path`; when it fails with an error, that error is returned and the
active path keeps its previous value. -/
theorem SetDataPath_follows_WriteConfig (path : String) (σ : State) :
    (SetDataPath path σ).1 = (data.WriteConfig { dataPath := path } σ.world).1 ∧
    (SetDataPath path σ).2.world = (data.WriteConfig { dataPath := path } σ.world).2 ∧
    ((data.WriteConfig { dataPath := path } σ.world).1 = .ok () →
      (SetDataPath path σ).2.dataPath = path ∧
      (SetDataPath path σ).2.world.configFile = .valid { dataPath := path }) ∧
    (∀ e, (data.WriteConfig { dataPath := path } σ.world).1 = .error e →
      (SetDataPath path σ).1 = .error e ∧ (SetDataPath path σ).2.dataPath = σ.dataPath) := by
  unfold SetDataPath data.WriteConfig
  by_cases hw : σ.world.configWritable = true
  · simp [hw]
  · simp [hw]

/-- Witness for C18: once with a writable config location, once with one that is
not. -/
theorem SetDataPath_follows_WriteConfig_witness :
    ((SetDataPath "/x/c.json" (freshState CommandsFile.empty)).2.dataPath = "/x/c.json" ∧
      (SetDataPath "/x/c.json" (freshState CommandsFile.empty)).2.world.configFile
        = .valid { dataPath := "/x/c.json" }) ∧
    ((SetDataPath "/x/c.json"
        { dataPath := "/old.json",
          world := { worldWith CommandsFile.empty with configWritable := false } }).1
        = .error .ConfigWriteError ∧
      (SetDataPath "/x/c.json"
        { dataPath := "/old.json",
          world := { worldWith CommandsFile.empty with configWritable := false } }).2.dataPath
        = "/old.json") :=
  ⟨(SetDataPath_follows_WriteConfig "/x/c.json" (freshState CommandsFile.empty)).2.2.1 rfl,
   (SetDataPath_follows_WriteConfig "/x/c.json"
      { dataPath := "/old.json",
        world := { worldWith CommandsFile.empty with configWritable := false } }).2.2.2
      .ConfigWriteError rfl⟩

/-! ## C19: `ensureDataPath` -/

/-- C19 as stated fails: with the active path empty and no config file, `ReadConfig`
fails with `ConfigMissingError` and `ensureDataPath` returns that error
instead of returning without error. -/
theorem ensureDataPath_counterexample :
    (NewArsenalService (unconfiguredWorld .absent)).dataPath = "" ∧
    data.HasConfig (unconfiguredWorld .absent) = false ∧
    data.ReadConfig (unconfiguredWorld .absent) = .error .ConfigMissingError ∧
    (ensureDataPath (NewArsenalService (unconfiguredWorld .absent))).1
      = .error .ConfigMissingError ∧
    (ensureDataPath (NewArsenalService (unconfiguredWorld .absent))).2.dataPath = "" := by
  refine ⟨rfl, rfl, rfl, rfl, rfl⟩

/-- C19 (amended): when the active path is not yet known and `ReadConfig` fails, as
it does with `ConfigMissingError` when no config exists, `ensureDataPath`
returns that error and leaves the service as it was, the active path still
empty.  When the active path is already known, `ensureDataPath` returns
without error and leaves the active path unchanged whatever the config file
holds. -/
theorem ensureDataPath_behaviour (σ : State) :
    (σ.dataPath = "" → ∀ e, data.ReadConfig σ.world = .error e →
      ensureDataPath σ = (.error e, σ)) ∧
    (σ.dataPath = "" → σ.world.configFile = .absent →
      ensureDataPath σ = (.error .ConfigMissingError, σ)) ∧
    (σ.dataPath ≠ "" → ∀ w : World,
      ensureDataPath { σ with world := w } = (.ok (), { σ with world := w })) := by
  refine ⟨?_, ?_, ?_⟩
  · intro hp e he
    simp [ensureDataPath, hp, he]
  · intro hp hc
    simp [ensureDataPath, hp, data.ReadConfig, hc]
  · intro hp w
    simp [ensureDataPath, hp]

/-- Witness for C19: a fresh service without config file, and a service whose active
path is known while the config file does not even parse. -/
theorem ensureDataPath_behaviour_witness :
    ensureDataPath (NewArsenalService (unconfiguredWorld .absent))
      = (.error .ConfigMissingError, NewArsenalService (unconfiguredWorld .absent)) ∧
    ensureDataPath
        { dataPath := "/data/commands.json",
          world := { unconfiguredWorld .absent with configFile := .malformed } }
      = (.ok (), { dataPath := "/data/commands.json",
                   world := { unconfiguredWorld .absent with configFile := .malformed } }) :=
  ⟨(ensureDataPath_behaviour (NewArsenalService (unconfiguredWorld .absent))).2.1 rfl rfl,
   (ensureDataPath_behaviour
      { dataPath := "/data/commands.json", world := unconfiguredWorld .absent }).2.2
      (by decide) { unconfiguredWorld .absent with configFile := .malformed }⟩

/-! ## C20: the command operations touch one command sequence only -/

theorem keysOf_set_of_lookup (doc : CommandsFile) (key : String) (g g' : Group)
    (hg : doc.lookup key = some g) : keysOf (doc.set key g').groups = keysOf doc.groups := by
  apply keysOf_setEntry_of_mem
  by_contra hn
  have := (lookupEntry_eq_none_iff key doc.groups).mpr hn
  unfold CommandsFile.lookup at hg
  rw [this] at hg
  cases hg

/-- What writing back a group with another command sequence leaves in place. -/
theorem writeBack_commands_frame (groupKey : String) (cmds : List Command)
    (σ σ1 σ' : State) (doc : CommandsFile) (g : Group)
    (hload : GetCommands σ = (.ok doc, σ1)) (hg : doc.lookup groupKey = some g)
    (hok : writeBack σ1 (doc.set groupKey { g with commands := cmds }) = (.ok (), σ')) :
    ∃ doc', GetCommands σ' = (.ok doc', σ') ∧
      keysOf doc'.groups = keysOf doc.groups ∧
      (∀ other, other ≠ groupKey → doc'.lookup other = doc.lookup other) ∧
      (∀ g0, doc.lookup groupKey = some g0 →
        ∃ g', doc'.lookup groupKey = some g' ∧ g'.name = g0.name ∧ g'.icon = g0.icon ∧
          g'.description = g0.description) := by
  obtain ⟨hget, _, _⟩ := writeBack_ok σ σ1 σ' doc _ hload hok
  refine ⟨_, hget, keysOf_set_of_lookup doc groupKey g _ hg,
    fun other h => lookupEntry_setEntry_other _ _ _ _ h, ?_⟩
  intro g0 hg0
  rw [hg] at hg0
  cases hg0
  exact ⟨_, lookupEntry_setEntry_same _ _ _, rfl, rfl, rfl⟩

/-- C20: in the document `GetCommands` shows after a successful `AddCommand`,
`UpdateCommand` or `DeleteCommand` on a group key, the keys of the groups
mapping are those loaded, every other key maps to the group it had, and the
group at the key, if there is one, keeps its name, icon and description. -/
theorem command_ops_frame (groupKey : String) (id : Int)
    (cmd description output note : String) (tags : List String)
    (σ σ1 σ' : State) (doc : CommandsFile)
    (hload : GetCommands σ = (.ok doc, σ1))
    (hok : AddCommand groupKey cmd description output note tags σ = (.ok (), σ') ∨
      UpdateCommand groupKey id cmd description output note tags σ = (.ok (), σ') ∨
      DeleteCommand groupKey id σ = (.ok (), σ')) :
    ∃ doc', GetCommands σ' = (.ok doc', σ') ∧
      keysOf doc'.groups = keysOf doc.groups ∧
      (∀ other, other ≠ groupKey → doc'.lookup other = doc.lookup other) ∧
      (∀ g, doc.lookup groupKey = some g →
        ∃ g', doc'.lookup groupKey = some g' ∧ g'.name = g.name ∧ g'.icon = g.icon ∧
          g'.description = g.description) := by
  cases hg : doc.lookup groupKey with
  | none =>
    have hσ : σ' = σ1 := by
      rcases hok with h | h | h
      · simp [AddCommand, hload, hg] at h; exact h.symm
      · simp [UpdateCommand, hload, hg] at h; exact h.symm
      · simp [DeleteCommand, hload, hg] at h; exact h.symm
    subst hσ
    refine ⟨doc, GetCommands_again σ _ doc hload, rfl, fun _ _ => rfl, ?_⟩
    intro g hgg
    cases hgg
  | some g =>
    have key := writeBack_commands_frame groupKey
    rcases hok with h | h | h
    · rw [AddCommand_eq groupKey cmd description output note tags σ σ1 doc g hload hg] at h
      have := key _ σ σ1 σ' doc g hload hg h
      rw [hg] at this
      exact this
    · rw [UpdateCommand_eq groupKey id cmd description output note tags σ σ1 doc g hload hg]
        at h
      have := key _ σ σ1 σ' doc g hload hg h
      rw [hg] at this
      exact this
    · rw [DeleteCommand_eq groupKey id σ σ1 doc g hload hg] at h
      have := key _ σ σ1 σ' doc g hload hg h
      rw [hg] at this
      exact this

/-- Witness for C20: adding a command to the group "tools". -/
theorem command_ops_frame_witness :
    ∃ doc', GetCommands (AddCommand "tools" "ls" "d" "o" "n" ["t"]
        (freshState (toolsDoc sampleCommands))).2
        = (.ok doc', (AddCommand "tools" "ls" "d" "o" "n" ["t"]
          (freshState (toolsDoc sampleCommands))).2) ∧
      keysOf doc'.groups = keysOf (toolsDoc sampleCommands).groups ∧
      (∀ other, other ≠ "tools" →
        doc'.lookup other = (toolsDoc sampleCommands).lookup other) ∧
      (∀ g, (toolsDoc sampleCommands).lookup "tools" = some g →
        ∃ g', doc'.lookup "tools" = some g' ∧ g'.name = g.name ∧ g'.icon = g.icon ∧
          g'.description = g.description) :=
  command_ops_frame "tools" 2 "ls" "d" "o" "n" ["t"]
    (freshState (toolsDoc sampleCommands))
    { dataPath := "/data/commands.json", world := worldWith (toolsDoc sampleCommands) }
    _ (toolsDoc sampleCommands) rfl (Or.inl rfl)

end services

end NukeArsenal
